import Mathlib

/-!
Verification of the docstack page-composition core.

This file gives a shallow embedding of the state model (web/js/state.js),
the rule parser (parseRules in the helper utilities), the cross-file
page-move operator (handleCrossFileDrag in web/js/app.js and
performCrossFileImport in web/js/ui/views.js) and the page-selection part
of the merge routine (mergePDFs in web/js/handlers/merge.js), and proves
properties of the embedded definitions.

Modelling conventions:
- JS strings are Lean Strings; character-level processing works on the
  underlying List Char.
- A JS numeric array used as a map (pageRotations) is an association
  list with most recent binding first; reads use the source's x or 0
  defaulting, so absent keys read as 0.
- Page indexes and page counts are Nat (they originate from 0-based
  array indexes and PDF page counts); rule-parser arithmetic is Int,
  as the rule text admits negative numbers.
- parseInt on a digit string is modelled exactly (no double rounding);
  the clamping into the page range makes the difference unobservable for
  any realistic page count.
- DOM bookkeeping, rendering, events and the pdf-lib byte copying are
  outside the model; only the page-reference computation is embedded.
-/

namespace Docstack

/-- An entry of a file's importedPages array:
{newIndex, sourceFileId, sourcePageIndex} (see state.js type comment). -/
structure ImportedPage where
  newIndex : Nat
  sourceFileId : String
  sourcePageIndex : Nat
deriving DecidableEq, Repr

/-- The model-relevant fields of an element of uploadedFiles
(state.js lines 27 to 43, initialised in the upload handler):
id, pageCount, rules, pageRotations, pageOrder, importedPages.
Fields name, size, arrayBuffer, pdfProxy and password carry bytes and
UI data and are outside the model. -/
structure FileDoc where
  id : String
  pageCount : Nat
  rules : String
  pageRotations : List (Nat × Int)
  pageOrder : List Nat
  importedPages : List ImportedPage
deriving DecidableEq, Repr

/-- The mutable module state of state.js: uploadedFiles and
globalPageOrder (a list of {fileId, pageIndex} records). -/
structure AppState where
  uploadedFiles : List FileDoc
  globalPageOrder : List (String × Nat)
deriving DecidableEq, Repr

/-- Read pageRotations[i] with the or-0 defaulting used at every read
site (file.pageRotations[i] or 0). -/
def rotGet (rots : List (Nat × Int)) (i : Nat) : Int :=
  (((rots.find? (fun p => p.1 == i)).map Prod.snd)).getD 0

/-- Write pageRotations[i] = v (array element assignment). -/
def rotSet (rots : List (Nat × Int)) (i : Nat) (v : Int) : List (Nat × Int) :=
  (i, v) :: rots

/-- Read pageRotations[i] for a possibly negative rule-page index: a JS
array read at a negative index yields undefined, hence 0 after or-0. -/
def rotGetI (rots : List (Nat × Int)) (i : Int) : Int :=
  if 0 ≤ i then rotGet rots i.toNat else 0

/-- state.js getFile: uploadedFiles.find(f => f.id === fileId). -/
def getFile (s : AppState) (fid : String) : Option FileDoc :=
  s.uploadedFiles.find? (fun f => f.id == fid)

/-- The fileData record built by the upload handler (handlers/upload.js):
rules empty, pageRotations all 0, pageOrder = [0 .. pageCount-1]. -/
def mkFileData (id : String) (pageCount : Nat) : FileDoc :=
  { id := id
    pageCount := pageCount
    rules := ""
    pageRotations := (List.range pageCount).map (fun i => (i, 0))
    pageOrder := List.range pageCount
    importedPages := [] }

/-- state.js addFile: push the file and invalidate the pages-view cache
(globalPageOrder = []). -/
def addFile (s : AppState) (f : FileDoc) : AppState :=
  { uploadedFiles := s.uploadedFiles ++ [f]
    globalPageOrder := [] }

/-- state.js removeFile: drop the file and purge its global-order
entries. -/
def removeFile (s : AppState) (fid : String) : AppState :=
  { uploadedFiles := s.uploadedFiles.filter (fun f => !(f.id == fid))
    globalPageOrder := s.globalPageOrder.filter (fun e => !(e.1 == fid)) }

/-- Mutate the object returned by getFile: exactly the first file whose
id matches is replaced (JS find returns a reference into the array). -/
def updateFirst (files : List FileDoc) (fid : String) (g : FileDoc → FileDoc) :
    List FileDoc :=
  match files with
  | [] => []
  | f :: fs => if f.id == fid then g f :: fs else f :: updateFirst fs fid g

/-- Apply updateFirst inside a state. -/
def updFile (s : AppState) (fid : String) (g : FileDoc → FileDoc) : AppState :=
  { s with uploadedFiles := updateFirst s.uploadedFiles fid g }

/-- state.js deletePage: if the file exists, remove the index from its
pageOrder and drop the matching globalPageOrder entry. -/
def deletePage (s : AppState) (fid : String) (i : Nat) : AppState :=
  match getFile s fid with
  | none => s
  | some _ =>
    { uploadedFiles := updateFirst s.uploadedFiles fid
        (fun f => { f with pageOrder := f.pageOrder.filter (fun j => !(j == i)) })
      globalPageOrder := s.globalPageOrder.filter
        (fun e => !(e.1 == fid && e.2 == i)) }

/-- state.js rotatePage: rotation = (rotation + degrees) mod 360, with
truncating JS remainder (Int.mod); reads of an initialised slot give the
stored value, or 0 for a slot never written (all physical slots are
written 0 at upload and every imported slot is written at import). -/
def rotatePage (s : AppState) (fid : String) (i : Nat) (degrees : Int) : AppState :=
  match getFile s fid with
  | none => s
  | some _ =>
    updFile s fid (fun f =>
      { f with pageRotations :=
          rotSet f.pageRotations i (Int.tmod (rotGet f.pageRotations i + degrees) 360) })

/-- state.js updateFileRules: store the raw rule text. -/
def updateFileRules (s : AppState) (fid : String) (rules : String) : AppState :=
  match getFile s fid with
  | none => s
  | some _ => updFile s fid (fun f => { f with rules := rules })

/-- The JS Map built by reorderFiles: later entries overwrite earlier
ones, so lookup returns the last file with the given id. -/
def jsMapGet (files : List FileDoc) (fid : String) : Option FileDoc :=
  files.reverse.find? (fun f => f.id == fid)

/-- state.js reorderFiles: uploadedFiles = newFileIds.map(map.get)
filtered of misses; the pages-view cache is invalidated. -/
def reorderFiles (s : AppState) (newFileIds : List String) : AppState :=
  { uploadedFiles := newFileIds.filterMap (jsMapGet s.uploadedFiles)
    globalPageOrder := [] }

/-- state.js buildGlobalPageOrder: concatenate every pageOrder in file
order. -/
def buildGlobalPageOrder (s : AppState) : AppState :=
  { s with globalPageOrder :=
      s.uploadedFiles.flatMap (fun f => f.pageOrder.map (fun i => (f.id, i))) }

/-! ## Rule parser (parseRules in the helper utilities) -/

/-- A parsed selection entry {page, rotation}: page is the 0-based page
index, rotation the clockwise rotation in degrees. -/
structure SelectionRule where
  page : Int
  rotation : Int
deriving DecidableEq, Repr

/-- Numeric value of a digit run (parseInt on a digit string). -/
def digitsToNat (ds : List Char) : Nat :=
  ds.foldl (fun n c => 10 * n + (c.toNat - 48)) 0

/-- Greedy match of the optional signed integer group of the clause
regex, pattern -?[0-9]+ ; none consumes nothing. -/
def takeInt (cs : List Char) : Option (Int × List Char) :=
  match cs with
  | '-' :: rest =>
    let ds := rest.takeWhile Char.isDigit
    if ds.isEmpty then none
    else some (-(digitsToNat ds : Int), rest.dropWhile Char.isDigit)
  | _ =>
    let ds := cs.takeWhile Char.isDigit
    if ds.isEmpty then none
    else some ((digitsToNat ds : Int), cs.dropWhile Char.isDigit)

/-- String.split on the comma character; an empty string yields one
empty part, a trailing comma an empty final part. -/
def splitComma (cs : List Char) : List (List Char) :=
  match cs with
  | [] => [[]]
  | ',' :: rest => [] :: splitComma rest
  | c :: rest =>
    match splitComma rest with
    | [] => [[c]]
    | p :: ps => (c :: p) :: ps

/-- Rotation suffix values of the regex group in brackets, greater 90,
V 180, less 270. -/
def rotOf (c : Char) : Option Int :=
  if c = '>' then some 90
  else if c = 'V' then some 180
  else if c = '<' then some 270
  else none

/-- The four captures of a successful clause match: optional start,
range marker presence, optional end, rotation (0 when absent). -/
structure ClauseParts where
  startPart : Option Int
  hasRange : Bool
  endPart : Option Int
  rot : Int
deriving DecidableEq, Repr

/-- Deterministic rendering of the clause regex match: each group is
taken greedily, which agrees with the backtracking semantics because no
character given back by one group can change where the following groups
can end. Returns none when the clause fails the grammar. -/
def matchClause (cs : List Char) : Option ClauseParts :=
  let p1 := match takeInt cs with
    | some (n, rest) => (some n, rest)
    | none => (none, cs)
  let p2 := match p1.2 with
    | '.' :: '.' :: rest => (true, rest)
    | other => (false, other)
  let p3 := match takeInt p2.2 with
    | some (n, rest) => (some n, rest)
    | none => (none, p2.2)
  match p3.2 with
  | [] => some ⟨p1.1, p2.1, p3.1, 0⟩
  | [c] => (rotOf c).map (fun r => ⟨p1.1, p2.1, p3.1, r⟩)
  | _ => none

/-- The emission loop of parseRules: from start while the bound against
end holds, stepping plus or minus 1, pushing the 0-based page p - 1. -/
def emitPages (start2 end2 rot : Int) : List SelectionRule :=
  if start2 ≤ end2 then
    (List.range (end2 - start2 + 1).toNat).map
      (fun k : Nat => ⟨start2 + (k : Int) - 1, rot⟩)
  else
    (List.range (start2 - end2 + 1).toNat).map
      (fun k : Nat => ⟨start2 - (k : Int) - 1, rot⟩)

/-- The page-emission loop body of parseRules for one matched clause:
resolve defaults, negative indexing, clamping into 1..pageCount, and
emission of the ascending or descending inclusive run of 0-based pages. -/
def clausePages (m : ClauseParts) (pageCount : Nat) : List SelectionRule :=
  let pc : Int := pageCount
  let start0 : Int := match m.startPart with
    | some n => n
    | none => 1
  let end0 : Int := match m.endPart with
    | some n => n
    | none => if m.hasRange then pc else start0
  let start1 : Int := if start0 < 0 then pc + start0 + 1 else start0
  let end1 : Int := if end0 < 0 then pc + end0 + 1 else end0
  emitPages (max 1 (min pc start1)) (max 1 (min pc end1)) m.rot

/-- Processing of one comma-separated clause: a clause failing the
grammar is silently dropped. -/
def parseClause (cs : List Char) (pageCount : Nat) : List SelectionRule :=
  match matchClause cs with
  | none => []
  | some m => clausePages m pageCount

/-- parseRules on the character list of the rule text. The guard of the
source reads: if the trimmed text is falsy return all pages in order;
a string trims to the empty string exactly when every character is
whitespace, which is how the guard is rendered here. Otherwise all
whitespace is removed and each comma-separated clause is processed. -/
def parseRulesL (cs : List Char) (pageCount : Nat) : List SelectionRule :=
  let stripped := cs.filter (fun c => !c.isWhitespace)
  if stripped.isEmpty then
    (List.range pageCount).map (fun i : Nat => ⟨(i : Int), 0⟩)
  else
    (splitComma stripped).flatMap (fun part => parseClause part pageCount)

/-- parseRules(rulesStr, pageCount) of the helper utilities. -/
def parseRules (rulesStr : String) (pageCount : Nat) : List SelectionRule :=
  parseRulesL rulesStr.data pageCount

/-! ## Cross-file import operator

handleCrossFileDrag (app.js, cross-file branch) and
performCrossFileImport (ui/views.js) perform the same state mutations in
the same order; they differ only in how the target pageOrder position of
the new index is chosen (drop position in the DOM versus append).
movePage renders the shared mutation sequence with the insert position a
parameter; performCrossFileImport instantiates it with append. -/

/-- Target-side mutations of the move up to the pageOrder insertion:
newPageIndex = targetFile.pageCount (read before the increment),
targetFile.pageCount++, push the import record
{newIndex, sourceFileId, sourcePageIndex}, copy the rotation read from
the source. -/
def moveTargetAlloc (sourceFileId : String) (pageIndex : Nat)
    (sourceFile targetFile : FileDoc) (f : FileDoc) : FileDoc :=
  { f with
    pageCount := f.pageCount + 1
    importedPages := f.importedPages ++
      [⟨targetFile.pageCount, sourceFileId, pageIndex⟩]
    pageRotations := rotSet f.pageRotations targetFile.pageCount
      (rotGet sourceFile.pageRotations pageIndex) }

/-- Source-side mutation of the move:
sourceFile.pageOrder = sourceFile.pageOrder.filter(idx not equal). -/
def moveSourceDrop (pageIndex : Nat) (f : FileDoc) : FileDoc :=
  { f with pageOrder := f.pageOrder.filter (fun j => !(j == pageIndex)) }

/-- Final target mutation of the move: the new index enters the target
pageOrder at the drop position (append in performCrossFileImport, the
DOM drop position in handleCrossFileDrag). -/
def moveTargetInsert (insertPos : Nat) (targetFile : FileDoc) (f : FileDoc) :
    FileDoc :=
  { f with pageOrder :=
      f.pageOrder.take insertPos ++
        targetFile.pageCount :: f.pageOrder.drop insertPos }

/-- The state mutations of a cross-file page move, in source statement
order. If either file is missing nothing happens. -/
def movePage (s : AppState) (sourceFileId targetFileId : String)
    (pageIndex : Nat) (insertPos : Nat) : AppState :=
  match getFile s sourceFileId, getFile s targetFileId with
  | some sourceFile, some targetFile =>
    let s1 := updFile s targetFileId
      (moveTargetAlloc sourceFileId pageIndex sourceFile targetFile)
    let s2 := updFile s1 sourceFileId (moveSourceDrop pageIndex)
    updFile s2 targetFileId (moveTargetInsert insertPos targetFile)
  | _, _ => s

/-- performCrossFileImport (ui/views.js): the move with the new index
appended to the target pageOrder. -/
def performCrossFileImport (s : AppState) (sourceFileId targetFileId : String)
    (pageIndex : Nat) : AppState :=
  movePage s sourceFileId targetFileId pageIndex
    (match getFile s targetFileId with
     | some f => f.pageOrder.length
     | none => 0)

/-! ## Composition engine (page-selection part of mergePDFs, merge.js)

mergePDFs walks either globalPageOrder (flattened mode) or every file
(by-file mode) and, for each entry, computes which physical page of
which source file to copy and with what total rotation. The byte copying
is external; the embedded functions return the list of
(source document, physical index, rotation) references in emission
order. A continue in the source is a skip here. -/

/-- One emitted page reference: the document whose bytes are copied, the
0-based page index handed to the copier, and the rotation applied. -/
structure OutputPage where
  docId : String
  physIndex : Int
  rotation : Int
deriving DecidableEq, Repr

/-- The loop body of the flattened branch of mergePDFs (merge.js
lines 145 to 190) for one globalPageOrder entry, as an optional result:
missing file or missing import source means the entry is skipped. -/
def resolveGlobalEntry (s : AppState) (e : String × Nat) : Option OutputPage :=
  match getFile s e.1 with
  | none => none
  | some file =>
    match file.importedPages.find? (fun p => p.newIndex == e.2) with
    | some importedPage =>
      match getFile s importedPage.sourceFileId with
      | none => none
      | some srcFile =>
        some ⟨srcFile.id, (importedPage.sourcePageIndex : Int),
          rotGet file.pageRotations e.2⟩
    | none => some ⟨file.id, (e.2 : Int), rotGet file.pageRotations e.2⟩

/-- The flattened-mode loop of mergePDFs, with continue rendered as a
skipping recursive call. -/
def flattenLoop (s : AppState) : List (String × Nat) → List OutputPage
  | [] => []
  | e :: rest =>
    match getFile s e.1 with
    | none => flattenLoop s rest
    | some file =>
      match file.importedPages.find? (fun p => p.newIndex == e.2) with
      | some importedPage =>
        match getFile s importedPage.sourceFileId with
        | none => flattenLoop s rest
        | some srcFile =>
          ⟨srcFile.id, (importedPage.sourcePageIndex : Int),
            rotGet file.pageRotations e.2⟩ :: flattenLoop s rest
      | none =>
        ⟨file.id, (e.2 : Int), rotGet file.pageRotations e.2⟩ :: flattenLoop s rest

/-- Flattened-mode composition: iterate globalPageOrder verbatim. -/
def mergeFlattened (s : AppState) : List OutputPage :=
  flattenLoop s s.globalPageOrder

/-- pagesToProcess of the by-file branch (merge.js lines 196 to 206):
rule-parser output when the trimmed rule text is non-empty, otherwise
pageOrder with rotation 0. -/
def pagesToProcess (file : FileDoc) : List SelectionRule :=
  if (file.rules.data.filter (fun c => !c.isWhitespace)).isEmpty then
    file.pageOrder.map (fun i : Nat => ⟨(i : Int), 0⟩)
  else
    parseRules file.rules file.pageCount

/-- One iteration of the inner by-file loop (merge.js lines 208 to 252)
as an optional result: the selected index is resolved through the
file's importedPages, and the emitted rotation is the rule rotation
plus the stored rotation at the selected index. -/
def resolveRuleEntry (s : AppState) (file : FileDoc) (rule : SelectionRule) :
    Option OutputPage :=
  match file.importedPages.find? (fun p => (p.newIndex : Int) == rule.page) with
  | some importedPage =>
    match getFile s importedPage.sourceFileId with
    | none => none
    | some srcFile =>
      some ⟨srcFile.id, (importedPage.sourcePageIndex : Int),
        rule.rotation + rotGetI file.pageRotations rule.page⟩
  | none =>
    some ⟨file.id, rule.page,
      rule.rotation + rotGetI file.pageRotations rule.page⟩

/-- The inner loop of the by-file branch, with continue rendered as a
skipping recursive call. -/
def ruleLoop (s : AppState) (file : FileDoc) : List SelectionRule → List OutputPage
  | [] => []
  | rule :: rest =>
    match file.importedPages.find? (fun p => (p.newIndex : Int) == rule.page) with
    | some importedPage =>
      match getFile s importedPage.sourceFileId with
      | none => ruleLoop s file rest
      | some srcFile =>
        ⟨srcFile.id, (importedPage.sourcePageIndex : Int),
          rule.rotation + rotGetI file.pageRotations rule.page⟩ ::
          ruleLoop s file rest
    | none =>
      ⟨file.id, rule.page,
        rule.rotation + rotGetI file.pageRotations rule.page⟩ ::
        ruleLoop s file rest

/-- The by-file output contributed by one file. -/
def mergeFile (s : AppState) (file : FileDoc) : List OutputPage :=
  ruleLoop s file (pagesToProcess file)

/-- By-file (by-document) composition: iterate the files in their
current order. -/
def mergeByFile (s : AppState) : List OutputPage :=
  s.uploadedFiles.flatMap (mergeFile s)

/-! ## Parser range lemmas -/

theorem emitPages_bounds (pc start2 end2 rot : Int)
    (hs1 : 1 ≤ start2) (hs2 : start2 ≤ pc) (he1 : 1 ≤ end2) (he2 : end2 ≤ pc)
    (r : SelectionRule) (hr : r ∈ emitPages start2 end2 rot) :
    0 ≤ r.page ∧ r.page < pc := by
  unfold emitPages at hr
  split_ifs at hr with hcmp <;>
  · obtain ⟨k, hk, rfl⟩ := List.mem_map.1 hr
    rw [List.mem_range] at hk
    constructor <;> · dsimp only; omega

theorem clausePages_bounds (m : ClauseParts) (pc : Nat) (hpc : 1 ≤ pc)
    (r : SelectionRule) (hr : r ∈ clausePages m pc) :
    0 ≤ r.page ∧ r.page < (pc : Int) := by
  have hpcI : (1 : Int) ≤ (pc : Int) := by exact_mod_cast hpc
  unfold clausePages at hr
  refine emitPages_bounds (pc : Int) _ _ m.rot ?_ ?_ ?_ ?_ r hr <;> omega

theorem parseRulesL_bounds (cs : List Char) (pc : Nat) (hpc : 1 ≤ pc)
    (r : SelectionRule) (hr : r ∈ parseRulesL cs pc) :
    0 ≤ r.page ∧ r.page < (pc : Int) := by
  rw [parseRulesL] at hr
  split_ifs at hr
  · obtain ⟨i, hi, rfl⟩ := List.mem_map.1 hr
    rw [List.mem_range] at hi
    refine ⟨Int.natCast_nonneg i, ?_⟩
    show (i : Int) < (pc : Int)
    exact_mod_cast hi
  · obtain ⟨part, _, hrp⟩ := List.mem_flatMap.1 hr
    rw [parseClause] at hrp
    cases hmc : matchClause part with
    | none => rw [hmc] at hrp; cases hrp
    | some m => rw [hmc] at hrp; exact clausePages_bounds m pc hpc r hrp

/-! ## Loop characterisation lemmas -/

theorem flattenLoop_eq_filterMap (s : AppState) (l : List (String × Nat)) :
    flattenLoop s l = l.filterMap (resolveGlobalEntry s) := by
  induction l with
  | nil => rfl
  | cons e rest ih =>
    rw [List.filterMap_cons]
    unfold flattenLoop resolveGlobalEntry
    cases hgf : getFile s e.1 with
    | none => exact ih
    | some file =>
      dsimp only
      cases hip : file.importedPages.find? (fun p => p.newIndex == e.2) with
      | none => rw [ih]; rfl
      | some importedPage =>
        dsimp only
        cases hsrc : getFile s importedPage.sourceFileId with
        | none => exact ih
        | some srcFile => rw [ih]; rfl

theorem ruleLoop_eq_filterMap (s : AppState) (file : FileDoc)
    (l : List SelectionRule) :
    ruleLoop s file l = l.filterMap (resolveRuleEntry s file) := by
  induction l with
  | nil => rfl
  | cons rule rest ih =>
    rw [List.filterMap_cons]
    unfold ruleLoop resolveRuleEntry
    cases hip : file.importedPages.find? (fun p => (p.newIndex : Int) == rule.page) with
    | none => rw [ih]; rfl
    | some importedPage =>
      dsimp only
      cases hsrc : getFile s importedPage.sourceFileId with
      | none => exact ih
      | some srcFile => rw [ih]; rfl

/-! ## Resolution pairs -/

/-- The (documentId, physicalIndex) pair stored for logical index i of
file f: the target of the file's import record for i when there is one,
else the file's own physical page i. This is the pair both composition
modes emit for a resolvable entry. -/
def resolvePair (f : FileDoc) (i : Nat) : String × Nat :=
  match f.importedPages.find? (fun p => p.newIndex == i) with
  | some r => (r.sourceFileId, r.sourcePageIndex)
  | none => (f.id, i)

theorem getFile_mem {s : AppState} {fid : String} {f : FileDoc}
    (h : getFile s fid = some f) : f ∈ s.uploadedFiles := by
  unfold getFile at h
  exact List.mem_of_find?_eq_some h

theorem getFile_id {s : AppState} {fid : String} {f : FileDoc}
    (h : getFile s fid = some f) : f.id = fid := by
  unfold getFile at h
  have hpa := List.find?_some h
  exact eq_of_beq hpa

theorem resolveGlobalEntry_some {s : AppState} {e : String × Nat} {o : OutputPage}
    (h : resolveGlobalEntry s e = some o) :
    ∃ f, getFile s e.1 = some f ∧
      o.docId = (resolvePair f e.2).1 ∧
      o.physIndex = ((resolvePair f e.2).2 : Int) ∧
      o.rotation = rotGet f.pageRotations e.2 := by
  cases hgf : getFile s e.1 with
  | none =>
    simp only [resolveGlobalEntry, hgf] at h
    exact Option.noConfusion h
  | some file =>
    refine ⟨file, rfl, ?_⟩
    cases hip : file.importedPages.find? (fun p => p.newIndex == e.2) with
    | none =>
      simp only [resolveGlobalEntry, hgf, hip, Option.some.injEq] at h
      subst h
      have hrp : resolvePair file e.2 = (file.id, e.2) := by
        unfold resolvePair
        rw [hip]
      rw [hrp]
      exact ⟨rfl, rfl, rfl⟩
    | some importedPage =>
      cases hsrc : getFile s importedPage.sourceFileId with
      | none =>
        simp only [resolveGlobalEntry, hgf, hip, hsrc] at h
        exact Option.noConfusion h
      | some srcFile =>
        simp only [resolveGlobalEntry, hgf, hip, hsrc, Option.some.injEq] at h
        subst h
        have hrp : resolvePair file e.2
            = (importedPage.sourceFileId, importedPage.sourcePageIndex) := by
          unfold resolvePair
          rw [hip]
        rw [hrp]
        exact ⟨getFile_id hsrc, rfl, rfl⟩

theorem find?_natCast_eq (f : FileDoc) (j : Nat) :
    f.importedPages.find? (fun p => (p.newIndex : Int) == ((j : Nat) : Int)) =
      f.importedPages.find? (fun p => p.newIndex == j) := by
  have hpred : (fun p : ImportedPage => (p.newIndex : Int) == ((j : Nat) : Int))
      = (fun p : ImportedPage => p.newIndex == j) := by
    funext p
    by_cases hp : p.newIndex = j
    · simp [hp]
    · have hpi : ((p.newIndex : Int) = (j : Int)) = False := by
        simp only [eq_iff_iff, iff_false]
        exact_mod_cast hp
      simp [hp, hpi]
  rw [hpred]

theorem resolveRuleEntry_natCast {s : AppState} {f : FileDoc} {j : Nat}
    {rot : Int} {o : OutputPage}
    (h : resolveRuleEntry s f ⟨(j : Nat), rot⟩ = some o) :
    o.docId = (resolvePair f j).1 ∧ o.physIndex = ((resolvePair f j).2 : Int) := by
  cases hip : f.importedPages.find? (fun p => p.newIndex == j) with
  | none =>
    simp only [resolveRuleEntry, find?_natCast_eq f j, hip, Option.some.injEq] at h
    subst h
    have hrp : resolvePair f j = (f.id, j) := by
      unfold resolvePair
      rw [hip]
    rw [hrp]
    exact ⟨rfl, rfl⟩
  | some importedPage =>
    cases hsrc : getFile s importedPage.sourceFileId with
    | none =>
      simp only [resolveRuleEntry, find?_natCast_eq f j, hip, hsrc] at h
      exact Option.noConfusion h
    | some srcFile =>
      simp only [resolveRuleEntry, find?_natCast_eq f j, hip, hsrc,
        Option.some.injEq] at h
      subst h
      have hrp : resolvePair f j
          = (importedPage.sourceFileId, importedPage.sourcePageIndex) := by
        unfold resolvePair
        rw [hip]
      rw [hrp]
      exact ⟨getFile_id hsrc, rfl⟩

/-! ## updateFirst lemmas -/

theorem updateFirst_map_id (files : List FileDoc) (fid : String)
    (g : FileDoc → FileDoc) (hg : ∀ f, (g f).id = f.id) :
    (updateFirst files fid g).map FileDoc.id = files.map FileDoc.id := by
  induction files with
  | nil => rfl
  | cons f fs ih =>
    unfold updateFirst
    by_cases hf : (f.id == fid) = true
    · rw [if_pos hf]
      simp [hg]
    · rw [if_neg hf]
      simp [ih]

theorem updateFirst_eq_map (files : List FileDoc) (fid : String)
    (g : FileDoc → FileDoc) (h : (files.map FileDoc.id).Nodup) :
    updateFirst files fid g =
      files.map (fun f => if f.id == fid then g f else f) := by
  induction files with
  | nil => rfl
  | cons f fs ih =>
    rw [List.map_cons, List.nodup_cons] at h
    unfold updateFirst
    by_cases hf : (f.id == fid) = true
    · rw [if_pos hf, List.map_cons, if_pos hf]
      have hfid : f.id = fid := eq_of_beq hf
      have : fs.map (fun f => if f.id == fid then g f else f) = fs.map id := by
        apply List.map_congr_left
        intro x hx
        have hxne : x.id ≠ fid := by
          intro hxe
          have hmem : x.id ∈ fs.map FileDoc.id := List.mem_map_of_mem FileDoc.id hx
          rw [hxe, ← hfid] at hmem
          exact h.1 hmem
        rw [if_neg (by simpa using hxne)]
        rfl
      rw [this, List.map_id]
    · rw [if_neg hf, List.map_cons, if_neg hf, ih h.2]

theorem updateFirst_find?_self {files : List FileDoc} {fid : String} {F : FileDoc}
    (g : FileDoc → FileDoc) (hg : ∀ f, (g f).id = f.id)
    (h : files.find? (fun f => f.id == fid) = some F) :
    (updateFirst files fid g).find? (fun f => f.id == fid) = some (g F) := by
  induction files with
  | nil => cases h
  | cons f fs ih =>
    unfold updateFirst
    by_cases hf : (f.id == fid) = true
    · rw [List.find?_cons_of_pos (p := fun x : FileDoc => x.id == fid) _ hf] at h
      cases h
      rw [if_pos hf]
      exact List.find?_cons_of_pos (p := fun x : FileDoc => x.id == fid) _
        (by show ((g F).id == fid) = true; rw [hg]; exact hf)
    · rw [List.find?_cons_of_neg (p := fun x : FileDoc => x.id == fid) _ hf] at h
      rw [if_neg hf, List.find?_cons_of_neg (p := fun x : FileDoc => x.id == fid) _ hf]
      exact ih h

theorem updateFirst_find?_other {files : List FileDoc} {fid fid2 : String}
    (g : FileDoc → FileDoc) (hg : ∀ f, (g f).id = f.id) (hne : fid2 ≠ fid) :
    (updateFirst files fid g).find? (fun f => f.id == fid2) =
      files.find? (fun f => f.id == fid2) := by
  induction files with
  | nil => rfl
  | cons f fs ih =>
    unfold updateFirst
    by_cases hf : (f.id == fid) = true
    · rw [if_pos hf]
      have hfid : f.id = fid := eq_of_beq hf
      have hno : ¬ (f.id == fid2) = true := by
        rw [hfid]
        simp only [beq_iff_eq]
        exact fun he => hne he.symm
      have hno2 : ¬ ((g f).id == fid2) = true := by rw [hg]; exact hno
      rw [List.find?_cons_of_neg (p := fun x : FileDoc => x.id == fid2) _ hno2,
        List.find?_cons_of_neg (p := fun x : FileDoc => x.id == fid2) _ hno]
    · rw [if_neg hf]
      by_cases hf2 : (f.id == fid2) = true
      · rw [List.find?_cons_of_pos (p := fun x : FileDoc => x.id == fid2) _ hf2,
          List.find?_cons_of_pos (p := fun x : FileDoc => x.id == fid2) _ hf2]
      · rw [List.find?_cons_of_neg (p := fun x : FileDoc => x.id == fid2) _ hf2,
          List.find?_cons_of_neg (p := fun x : FileDoc => x.id == fid2) _ hf2]
        exact ih

/-! ## Reachable states

Step is one user-performable mutation of the working set. addFile ids
come from crypto.randomUUID (upload handler), fresh against every id
ever seen; this is rendered as freshness against the current ids and
against every id recorded in an import record. A cross-file move is a
drag of a live page thumbnail, so the moved index is in the source
pageOrder and the two files differ; both call sites resynchronise the
global order right after the move (syncPagesViewOrder and the
setGlobalPageOrder call in the pages view), rendered as a rebuild. -/
inductive Step : AppState → AppState → Prop where
  | add (s : AppState) (id : String) (pc : Nat)
      (hfresh : ∀ f ∈ s.uploadedFiles, f.id ≠ id)
      (hrec : ∀ f ∈ s.uploadedFiles, ∀ r ∈ f.importedPages,
        r.sourceFileId ≠ id) :
      Step s (addFile s (mkFileData id pc))
  | remove (s : AppState) (fid : String) : Step s (removeFile s fid)
  | del (s : AppState) (fid : String) (i : Nat) : Step s (deletePage s fid i)
  | rot (s : AppState) (fid : String) (i : Nat) (d : Int) :
      Step s (rotatePage s fid i d)
  | move (s : AppState) (src tgt : String) (i pos : Nat) (hne : src ≠ tgt)
      (hlive : ∀ f, getFile s src = some f → i ∈ f.pageOrder) :
      Step s (buildGlobalPageOrder (movePage s src tgt i pos))
  | rebuild (s : AppState) : Step s (buildGlobalPageOrder s)

/-- States reachable from the initial empty working set. -/
inductive Reachable : AppState → Prop where
  | init : Reachable ⟨[], []⟩
  | step {s t : AppState} : Reachable s → Step s t → Reachable t

/-- The system invariant carried over reachable states. -/
structure Inv (s : AppState) : Prop where
  idsNodup : (s.uploadedFiles.map FileDoc.id).Nodup
  orderNodup : ∀ f ∈ s.uploadedFiles, f.pageOrder.Nodup
  orderLt : ∀ f ∈ s.uploadedFiles, ∀ i ∈ f.pageOrder, i < f.pageCount
  recLt : ∀ f ∈ s.uploadedFiles, ∀ r ∈ f.importedPages, r.newIndex < f.pageCount
  tgtLt : ∀ f ∈ s.uploadedFiles, ∀ r ∈ f.importedPages, ∀ g ∈ s.uploadedFiles,
    g.id = r.sourceFileId → r.sourcePageIndex < g.pageCount
  tgtDead : ∀ f ∈ s.uploadedFiles, ∀ r ∈ f.importedPages, ∀ g ∈ s.uploadedFiles,
    g.id = r.sourceFileId → r.sourcePageIndex ∉ g.pageOrder
  inj : ∀ f ∈ s.uploadedFiles, ∀ g ∈ s.uploadedFiles, ∀ i ∈ f.pageOrder,
    ∀ j ∈ g.pageOrder, resolvePair f i = resolvePair g j → f = g ∧ i = j
  globNodup : s.globalPageOrder.Nodup
  globLive : ∀ e ∈ s.globalPageOrder, ∀ f ∈ s.uploadedFiles, f.id = e.1 →
    e.2 ∈ f.pageOrder

theorem eq_of_id_eq {files : List FileDoc}
    (h : (files.map FileDoc.id).Nodup) {f g : FileDoc}
    (hf : f ∈ files) (hg : g ∈ files) (he : f.id = g.id) : f = g :=
  List.inj_on_of_nodup_map h hf hg he

theorem resolvePair_congr {f g : FileDoc} (hid : g.id = f.id)
    (hrec : g.importedPages = f.importedPages) (x : Nat) :
    resolvePair g x = resolvePair f x := by
  unfold resolvePair
  rw [hrec, hid]

theorem nodup_global_build (files : List FileDoc)
    (h1 : (files.map FileDoc.id).Nodup)
    (h2 : ∀ f ∈ files, f.pageOrder.Nodup) :
    (files.flatMap (fun f => f.pageOrder.map (fun i => (f.id, i)))).Nodup := by
  induction files with
  | nil => exact List.nodup_nil
  | cons f fs ih =>
    rw [List.map_cons, List.nodup_cons] at h1
    rw [List.flatMap_cons, List.nodup_append]
    refine ⟨?_, ?_, ?_⟩
    · exact (h2 f (List.mem_cons_self f fs)).map
        (fun a b hab => Prod.ext_iff.1 hab |>.2)
    · exact ih h1.2 (fun g hg => h2 g (List.mem_cons_of_mem f hg))
    · intro x hx hx2
      obtain ⟨a, _, rfl⟩ := List.mem_map.1 hx
      obtain ⟨g, hg, hgx⟩ := List.mem_flatMap.1 hx2
      obtain ⟨b, _, hb⟩ := List.mem_map.1 hgx
      have : g.id = f.id := (Prod.ext_iff.1 hb).1
      exact h1.1 (this ▸ List.mem_map_of_mem FileDoc.id hg)

theorem inv_buildGlobalPageOrder {s : AppState} (h : Inv s) :
    Inv (buildGlobalPageOrder s) := by
  refine ⟨h.idsNodup, h.orderNodup, h.orderLt, h.recLt, h.tgtLt, h.tgtDead,
    h.inj, ?_, ?_⟩
  · exact nodup_global_build s.uploadedFiles h.idsNodup h.orderNodup
  · intro e he f hf hfe
    obtain ⟨g, hg, hge⟩ := List.mem_flatMap.1 he
    obtain ⟨b, hb, hbe⟩ := List.mem_map.1 hge
    have h1 : g.id = e.1 := (Prod.ext_iff.1 hbe).1
    have h2 : b = e.2 := (Prod.ext_iff.1 hbe).2
    have : f = g := eq_of_id_eq h.idsNodup hf hg (hfe.trans h1.symm)
    rw [this, ← h2]
    exact hb

theorem inv_addFile {s : AppState} (h : Inv s) (id : String) (pc : Nat)
    (hfresh : ∀ f ∈ s.uploadedFiles, f.id ≠ id)
    (hrec : ∀ f ∈ s.uploadedFiles, ∀ r ∈ f.importedPages, r.sourceFileId ≠ id) :
    Inv (addFile s (mkFileData id pc)) := by
  have hmem : ∀ {f : FileDoc},
      f ∈ (addFile s (mkFileData id pc)).uploadedFiles →
      f ∈ s.uploadedFiles ∨ f = mkFileData id pc := by
    intro f hf
    rcases List.mem_append.1 hf with hf | hf
    · exact Or.inl hf
    · exact Or.inr (List.mem_singleton.1 hf)
  have hnewrec : (mkFileData id pc).importedPages = [] := rfl
  have hnewid : (mkFileData id pc).id = id := rfl
  have hresolve_new : ∀ x : Nat, resolvePair (mkFileData id pc) x = (id, x) := by
    intro x
    unfold resolvePair
    rw [hnewrec]
    rfl
  refine ⟨?_, ?_, ?_, ?_, ?_, ?_, ?_, ?_, ?_⟩
  · show ((s.uploadedFiles ++ [mkFileData id pc]).map FileDoc.id).Nodup
    rw [List.map_append, List.nodup_append]
    refine ⟨h.idsNodup, List.nodup_singleton _, ?_⟩
    intro x hx hx2
    obtain ⟨f, hf, rfl⟩ := List.mem_map.1 hx
    rw [List.map_singleton, List.mem_singleton] at hx2
    exact hfresh f hf hx2
  · intro f hf
    rcases hmem hf with hf | rfl
    · exact h.orderNodup f hf
    · exact List.nodup_range pc
  · intro f hf i hi
    rcases hmem hf with hf | rfl
    · exact h.orderLt f hf i hi
    · exact List.mem_range.1 hi
  · intro f hf r hr
    rcases hmem hf with hf | rfl
    · exact h.recLt f hf r hr
    · rw [hnewrec] at hr; cases hr
  · intro f hf r hr g hg hgid
    rcases hmem hf with hf | rfl
    · rcases hmem hg with hg | rfl
      · exact h.tgtLt f hf r hr g hg hgid
      · exact absurd (hnewid ▸ hgid).symm (hrec f hf r hr)
    · rw [hnewrec] at hr; cases hr
  · intro f hf r hr g hg hgid
    rcases hmem hf with hf | rfl
    · rcases hmem hg with hg | rfl
      · exact h.tgtDead f hf r hr g hg hgid
      · exact absurd (hnewid ▸ hgid).symm (hrec f hf r hr)
    · rw [hnewrec] at hr; cases hr
  · intro f hf g hg i hi j hj hres
    rcases hmem hf with hf | rfl <;> rcases hmem hg with hg | rfl
    · exact h.inj f hf g hg i hi j hj hres
    · rw [hresolve_new j] at hres
      unfold resolvePair at hres
      rcases hcase : f.importedPages.find? (fun p => p.newIndex == i) with _ | r
      · rw [hcase] at hres
        have : f.id = id := (Prod.ext_iff.1 hres).1
        exact absurd this (hfresh f hf)
      · rw [hcase] at hres
        have : r.sourceFileId = id := (Prod.ext_iff.1 hres).1
        exact absurd this (hrec f hf r (List.mem_of_find?_eq_some hcase))
    · rw [hresolve_new i] at hres
      unfold resolvePair at hres
      rcases hcase : g.importedPages.find? (fun p => p.newIndex == j) with _ | r
      · rw [hcase] at hres
        have : g.id = id := (Prod.ext_iff.1 hres).1.symm
        exact absurd this (hfresh g hg)
      · rw [hcase] at hres
        have : r.sourceFileId = id := (Prod.ext_iff.1 hres).1.symm
        exact absurd this (hrec g hg r (List.mem_of_find?_eq_some hcase))
    · rw [hresolve_new i, hresolve_new j] at hres
      exact ⟨rfl, (Prod.ext_iff.1 hres).2⟩
  · exact List.nodup_nil
  · intro e he
    cases he

theorem inv_removeFile {s : AppState} (h : Inv s) (fid : String) :
    Inv (removeFile s fid) := by
  have hmem : ∀ {f : FileDoc}, f ∈ (removeFile s fid).uploadedFiles →
      f ∈ s.uploadedFiles := fun hf => List.mem_of_mem_filter hf
  refine ⟨?_, ?_, ?_, ?_, ?_, ?_, ?_, ?_, ?_⟩
  · exact h.idsNodup.sublist ((List.filter_sublist _).map FileDoc.id)
  · exact fun f hf => h.orderNodup f (hmem hf)
  · exact fun f hf => h.orderLt f (hmem hf)
  · exact fun f hf => h.recLt f (hmem hf)
  · exact fun f hf r hr g hg => h.tgtLt f (hmem hf) r hr g (hmem hg)
  · exact fun f hf r hr g hg => h.tgtDead f (hmem hf) r hr g (hmem hg)
  · exact fun f hf g hg => h.inj f (hmem hf) g (hmem hg)
  · exact h.globNodup.filter _
  · exact fun e he f hf => h.globLive e (List.mem_of_mem_filter he) f (hmem hf)

theorem inv_updFile {s : AppState} (h : Inv s) (fid : String)
    (g : FileDoc → FileDoc) (glob2 : List (String × Nat))
    (hid : ∀ f, (g f).id = f.id)
    (hpc : ∀ f, (g f).pageCount = f.pageCount)
    (hrec : ∀ f, (g f).importedPages = f.importedPages)
    (hsub : ∀ f, (g f).pageOrder.Sublist f.pageOrder)
    (hnd : ∀ f, f.pageOrder.Nodup → (g f).pageOrder.Nodup)
    (hgnd : glob2.Nodup)
    (hglive : ∀ e ∈ glob2, ∀ f ∈ s.uploadedFiles, f.id = e.1 →
      e.2 ∈ (if f.id == fid then g f else f).pageOrder) :
    Inv ⟨updateFirst s.uploadedFiles fid g, glob2⟩ := by
  have hmap := updateFirst_eq_map s.uploadedFiles fid g h.idsNodup
  have sid : ∀ f : FileDoc, (if f.id == fid then g f else f).id = f.id := by
    intro f
    by_cases hb : (f.id == fid) = true
    · rw [if_pos hb]; exact hid f
    · rw [if_neg hb]
  have spc : ∀ f : FileDoc,
      (if f.id == fid then g f else f).pageCount = f.pageCount := by
    intro f
    by_cases hb : (f.id == fid) = true
    · rw [if_pos hb]; exact hpc f
    · rw [if_neg hb]
  have srec : ∀ f : FileDoc,
      (if f.id == fid then g f else f).importedPages = f.importedPages := by
    intro f
    by_cases hb : (f.id == fid) = true
    · rw [if_pos hb]; exact hrec f
    · rw [if_neg hb]
  have ssub : ∀ f : FileDoc,
      ((if f.id == fid then g f else f).pageOrder).Sublist f.pageOrder := by
    intro f
    by_cases hb : (f.id == fid) = true
    · rw [if_pos hb]; exact hsub f
    · rw [if_neg hb]
  have snd : ∀ f : FileDoc, f.pageOrder.Nodup →
      ((if f.id == fid then g f else f).pageOrder).Nodup := by
    intro f hf
    by_cases hb : (f.id == fid) = true
    · rw [if_pos hb]; exact hnd f hf
    · rw [if_neg hb]; exact hf
  have sres : ∀ (f : FileDoc) (x : Nat),
      resolvePair (if f.id == fid then g f else f) x = resolvePair f x :=
    fun f x => resolvePair_congr (sid f) (srec f) x
  have hmem : ∀ {f' : FileDoc}, f' ∈ updateFirst s.uploadedFiles fid g →
      ∃ f ∈ s.uploadedFiles, f' = if f.id == fid then g f else f := by
    intro f' hf'
    rw [hmap] at hf'
    obtain ⟨f, hf, rfl⟩ := List.mem_map.1 hf'
    exact ⟨f, hf, rfl⟩
  refine ⟨?_, ?_, ?_, ?_, ?_, ?_, ?_, hgnd, ?_⟩
  · show ((updateFirst s.uploadedFiles fid g).map FileDoc.id).Nodup
    rw [updateFirst_map_id s.uploadedFiles fid g hid]
    exact h.idsNodup
  · intro f' hf'
    obtain ⟨f, hf, rfl⟩ := hmem hf'
    exact snd f (h.orderNodup f hf)
  · intro f' hf' i hi
    obtain ⟨f, hf, rfl⟩ := hmem hf'
    rw [spc f]
    exact h.orderLt f hf i ((ssub f).subset hi)
  · intro f' hf' r hr
    obtain ⟨f, hf, rfl⟩ := hmem hf'
    rw [spc f]
    rw [srec f] at hr
    exact h.recLt f hf r hr
  · intro f' hf' r hr g2 hg2 hgid
    obtain ⟨f, hf, rfl⟩ := hmem hf'
    obtain ⟨g0, hg0, rfl⟩ := hmem hg2
    rw [srec f] at hr
    rw [spc g0]
    exact h.tgtLt f hf r hr g0 hg0 ((sid g0) ▸ hgid)
  · intro f' hf' r hr g2 hg2 hgid
    obtain ⟨f, hf, rfl⟩ := hmem hf'
    obtain ⟨g0, hg0, rfl⟩ := hmem hg2
    rw [srec f] at hr
    intro hmem2
    exact h.tgtDead f hf r hr g0 hg0 ((sid g0) ▸ hgid) ((ssub g0).subset hmem2)
  · intro f' hf' g2 hg2 i hi j hj hres
    obtain ⟨f, hf, rfl⟩ := hmem hf'
    obtain ⟨g0, hg0, rfl⟩ := hmem hg2
    rw [sres f i, sres g0 j] at hres
    obtain ⟨rfl, rfl⟩ := h.inj f hf g0 hg0 i ((ssub f).subset hi) j
      ((ssub g0).subset hj) hres
    exact ⟨rfl, rfl⟩
  · intro e he f' hf' hfe
    obtain ⟨f, hf, rfl⟩ := hmem hf'
    exact hglive e he f hf ((sid f) ▸ hfe)

theorem inv_deletePage {s : AppState} (h : Inv s) (fid : String) (i : Nat) :
    Inv (deletePage s fid i) := by
  unfold deletePage
  cases hgf : getFile s fid with
  | none => exact h
  | some F =>
    refine inv_updFile h fid _ _ (fun f => rfl) (fun f => rfl) (fun f => rfl)
      (fun f => List.filter_sublist _) (fun f hf => hf.filter _)
      (h.globNodup.filter _) ?_
    intro e he f hf hfe
    have he2 := List.mem_of_mem_filter he
    have hcond := List.of_mem_filter he
    have hlive := h.globLive e he2 f hf hfe
    by_cases hb : (f.id == fid) = true
    · rw [if_pos hb]
      refine List.mem_filter.2 ⟨hlive, ?_⟩
      have hne : ¬ (e.1 = fid ∧ e.2 = i) := by
        intro ⟨h1, h2⟩
        rw [Bool.not_eq_eq_eq_not, Bool.not_true] at hcond
        rw [h1, h2] at hcond
        simp at hcond
      have : e.2 ≠ i := by
        intro h2
        exact hne ⟨hfe ▸ (eq_of_beq hb), h2⟩
      simpa using this
    · rw [if_neg hb]
      exact hlive

theorem inv_rotatePage {s : AppState} (h : Inv s) (fid : String) (i : Nat)
    (d : Int) : Inv (rotatePage s fid i d) := by
  unfold rotatePage
  cases hgf : getFile s fid with
  | none => exact h
  | some F =>
    refine inv_updFile h fid _ _ (fun f => rfl) (fun f => rfl) (fun f => rfl)
      (fun f => List.Sublist.refl _) (fun f hf => hf) h.globNodup ?_
    intro e he f hf hfe
    by_cases hb : (f.id == fid) = true
    · rw [if_pos hb]
      exact h.globLive e he f hf hfe
    · rw [if_neg hb]
      exact h.globLive e he f hf hfe

/-! ## Move preservation -/

/-- Conditional application of a file update, the pointwise form of
updateFirst over a list with distinct ids. -/
def ifUpd (fid : String) (g : FileDoc → FileDoc) (f : FileDoc) : FileDoc :=
  if f.id == fid then g f else f

/-- Pointwise effect of a complete cross-file move on each file. -/
def moveSubst (src tgt : String) (i pos : Nat) (S T : FileDoc)
    (f : FileDoc) : FileDoc :=
  if f.id == tgt then moveTargetInsert pos T (moveTargetAlloc src i S T f)
  else if f.id == src then moveSourceDrop i f
  else f

theorem updateFirst_eq_map_ifUpd (files : List FileDoc) (fid : String)
    (g : FileDoc → FileDoc) (h : (files.map FileDoc.id).Nodup) :
    updateFirst files fid g = files.map (ifUpd fid g) :=
  updateFirst_eq_map files fid g h

theorem map_id_of_preserving (files : List FileDoc) (φ : FileDoc → FileDoc)
    (hφ : ∀ f, (φ f).id = f.id) :
    (files.map φ).map FileDoc.id = files.map FileDoc.id := by
  rw [List.map_map]
  exact List.map_congr_left (fun f _ => hφ f)

theorem ifUpd_id (fid : String) (g : FileDoc → FileDoc)
    (hg : ∀ f, (g f).id = f.id) (f : FileDoc) : (ifUpd fid g f).id = f.id := by
  unfold ifUpd
  by_cases hb : (f.id == fid) = true
  · rw [if_pos hb]; exact hg f
  · rw [if_neg hb]

theorem movePage_files {s : AppState} {src tgt : String} (i pos : Nat)
    {S T : FileDoc} (hS : getFile s src = some S) (hT : getFile s tgt = some T)
    (hne : src ≠ tgt) (hnd : (s.uploadedFiles.map FileDoc.id).Nodup) :
    (movePage s src tgt i pos).uploadedFiles
      = s.uploadedFiles.map (moveSubst src tgt i pos S T) := by
  have hidA : ∀ f, (moveTargetAlloc src i S T f).id = f.id := fun f => rfl
  have hidD : ∀ f, (moveSourceDrop i f).id = f.id := fun f => rfl
  have hidI : ∀ f, (moveTargetInsert pos T f).id = f.id := fun f => rfl
  have hnd1 : ((s.uploadedFiles.map
      (ifUpd tgt (moveTargetAlloc src i S T))).map FileDoc.id).Nodup := by
    rw [map_id_of_preserving _ _ (ifUpd_id tgt _ hidA)]
    exact hnd
  have hnd2 : (((s.uploadedFiles.map (ifUpd tgt (moveTargetAlloc src i S T))).map
      (ifUpd src (moveSourceDrop i))).map FileDoc.id).Nodup := by
    rw [map_id_of_preserving _ _ (ifUpd_id src _ hidD)]
    exact hnd1
  simp only [movePage, hS, hT, updFile]
  rw [updateFirst_eq_map_ifUpd _ tgt _ hnd,
    updateFirst_eq_map_ifUpd _ src _ hnd1,
    updateFirst_eq_map_ifUpd _ tgt _ hnd2,
    List.map_map, List.map_map]
  apply List.map_congr_left
  intro f _
  show ifUpd tgt (moveTargetInsert pos T)
      (ifUpd src (moveSourceDrop i)
        (ifUpd tgt (moveTargetAlloc src i S T) f)) = moveSubst src tgt i pos S T f
  unfold ifUpd moveSubst
  by_cases hb1 : (f.id == tgt) = true
  · have hbs : ¬ ((moveTargetAlloc src i S T f).id == src) = true := by
      show ¬ (f.id == src) = true
      have h1 : f.id = tgt := eq_of_beq hb1
      rw [h1]
      simp only [beq_iff_eq]
      exact fun he => hne he.symm
    have hbt : ((moveTargetAlloc src i S T f).id == tgt) = true := hb1
    rw [if_pos hb1, if_neg hbs, if_pos hbt, if_pos hb1]
  · by_cases hb2 : (f.id == src) = true
    · have hbt : ¬ ((moveSourceDrop i f).id == tgt) = true := hb1
      rw [if_neg hb1, if_pos hb2, if_neg hbt, if_neg hb1]
    · rw [if_neg hb1, if_neg hb2, if_neg hb1, if_neg hb1]

theorem mem_insert_take_drop {l : List Nat} {a x : Nat} (pos : Nat) :
    x ∈ (l.take pos ++ a :: l.drop pos) ↔ x = a ∨ x ∈ l := by
  constructor
  · intro hx
    rcases List.mem_append.1 hx with hx | hx
    · exact Or.inr (List.take_subset pos l hx)
    · rcases List.mem_cons.1 hx with hx | hx
      · exact Or.inl hx
      · exact Or.inr (List.drop_subset pos l hx)
  · intro hx
    rcases hx with rfl | hx
    · exact List.mem_append_right _ (List.mem_cons_self _ _)
    · rw [← List.take_append_drop pos l] at hx
      rcases List.mem_append.1 hx with hx | hx
      · exact List.mem_append_left _ hx
      · exact List.mem_append_right _ (List.mem_cons_of_mem _ hx)

theorem nodup_insert_take_drop {l : List Nat} {a : Nat} (pos : Nat)
    (hnd : l.Nodup) (ha : a ∉ l) : (l.take pos ++ a :: l.drop pos).Nodup := by
  have hsplit := List.take_append_drop pos l
  have hnd2 : (l.take pos ++ l.drop pos).Nodup := by rw [hsplit]; exact hnd
  rw [List.nodup_append] at hnd2
  obtain ⟨h1, h2, h3⟩ := hnd2
  rw [List.nodup_append]
  refine ⟨h1, ?_, ?_⟩
  · rw [List.nodup_cons]
    refine ⟨fun hmem => ha ?_, h2⟩
    exact List.drop_subset pos l hmem
  · intro x hx hx2
    rcases List.mem_cons.1 hx2 with rfl | hx2
    · exact ha (List.take_subset pos l hx)
    · exact h3 hx hx2

theorem moveSubst_id (src tgt : String) (i pos : Nat) (S T f : FileDoc) :
    (moveSubst src tgt i pos S T f).id = f.id := by
  unfold moveSubst
  by_cases hb1 : (f.id == tgt) = true
  · rw [if_pos hb1]; rfl
  · rw [if_neg hb1]
    by_cases hb2 : (f.id == src) = true
    · rw [if_pos hb2]; rfl
    · rw [if_neg hb2]

theorem inv_glob_empty {s : AppState} (h : Inv s) : Inv ⟨s.uploadedFiles, []⟩ :=
  ⟨h.idsNodup, h.orderNodup, h.orderLt, h.recLt, h.tgtLt, h.tgtDead, h.inj,
    List.nodup_nil, fun e he => absurd he (List.not_mem_nil e)⟩

theorem state_eta (s : AppState) : s = ⟨s.uploadedFiles, s.globalPageOrder⟩ := rfl

theorem inv_move_core {s : AppState} (h : Inv s) (src tgt : String)
    (i pos : Nat) (hne : src ≠ tgt)
    (hlive : ∀ f, getFile s src = some f → i ∈ f.pageOrder) :
    Inv ⟨(movePage s src tgt i pos).uploadedFiles, []⟩ := by
  cases hS : getFile s src with
  | none =>
    have hmp : movePage s src tgt i pos = s := by
      unfold movePage
      rw [hS]
    rw [hmp]
    exact inv_glob_empty h
  | some S =>
  cases hT : getFile s tgt with
  | none =>
    have hmp : movePage s src tgt i pos = s := by
      unfold movePage
      rw [hS, hT]
    rw [hmp]
    exact inv_glob_empty h
  | some T =>
  have hfiles := movePage_files i pos hS hT hne h.idsNodup
  have hSmem : S ∈ s.uploadedFiles := getFile_mem hS
  have hTmem : T ∈ s.uploadedFiles := getFile_mem hT
  have hSid : S.id = src := getFile_id hS
  have hTid : T.id = tgt := getFile_id hT
  have hi : i ∈ S.pageOrder := hlive S hS
  have hST : S ≠ T := by
    intro he
    exact hne (hSid ▸ hTid ▸ he ▸ rfl)
  have huniqT : ∀ f ∈ s.uploadedFiles, f.id = tgt → f = T := by
    intro f hf he
    exact eq_of_id_eq h.idsNodup hf hTmem (he.trans hTid.symm)
  have huniqS : ∀ f ∈ s.uploadedFiles, f.id = src → f = S := by
    intro f hf he
    exact eq_of_id_eq h.idsNodup hf hSmem (he.trans hSid.symm)
  -- abbreviations for the two mutated files
  have htri : ∀ f ∈ s.uploadedFiles,
      (f = T ∧ moveSubst src tgt i pos S T f
        = moveTargetInsert pos T (moveTargetAlloc src i S T T))
      ∨ (f = S ∧ moveSubst src tgt i pos S T f = moveSourceDrop i S)
      ∨ (f ≠ T ∧ f ≠ S ∧ moveSubst src tgt i pos S T f = f) := by
    intro f hf
    by_cases hb1 : (f.id == tgt) = true
    · have hfT : f = T := huniqT f hf (eq_of_beq hb1)
      refine Or.inl ⟨hfT, ?_⟩
      unfold moveSubst
      rw [if_pos hb1, hfT]
    · by_cases hb2 : (f.id == src) = true
      · have hfS : f = S := huniqS f hf (eq_of_beq hb2)
        refine Or.inr (Or.inl ⟨hfS, ?_⟩)
        unfold moveSubst
        rw [if_neg hb1, if_pos hb2, hfS]
      · refine Or.inr (Or.inr ⟨?_, ?_, ?_⟩)
        · intro he
          exact hb1 (by rw [he, hTid]; exact beq_self_eq_true _)
        · intro he
          exact hb2 (by rw [he, hSid]; exact beq_self_eq_true _)
        · unfold moveSubst
          rw [if_neg hb1, if_neg hb2]
  have hTT_order : (moveTargetInsert pos T (moveTargetAlloc src i S T T)).pageOrder
      = T.pageOrder.take pos ++ T.pageCount :: T.pageOrder.drop pos := rfl
  have hTT_recs : (moveTargetInsert pos T (moveTargetAlloc src i S T T)).importedPages
      = T.importedPages ++ [⟨T.pageCount, src, i⟩] := rfl
  have hTT_id : (moveTargetInsert pos T (moveTargetAlloc src i S T T)).id = T.id := rfl
  have hTT_pc : (moveTargetInsert pos T (moveTargetAlloc src i S T T)).pageCount
      = T.pageCount + 1 := rfl
  have hSS_order : (moveSourceDrop i S).pageOrder
      = S.pageOrder.filter (fun j => !(j == i)) := rfl
  have hn_notmem : T.pageCount ∉ T.pageOrder := by
    intro hmem
    exact absurd (h.orderLt T hTmem T.pageCount hmem) (lt_irrefl _)
  have hfind_none : T.importedPages.find? (fun p => p.newIndex == T.pageCount)
      = none := by
    rw [List.find?_eq_none]
    intro r hr
    have := h.recLt T hTmem r hr
    simp only [beq_iff_eq]
    omega
  have hresTT_new : resolvePair
      (moveTargetInsert pos T (moveTargetAlloc src i S T T)) T.pageCount
      = (src, i) := by
    unfold resolvePair
    rw [hTT_recs, List.find?_append, hfind_none, Option.none_or]
    rw [List.find?_cons_of_pos (p := fun p : ImportedPage => p.newIndex == T.pageCount) _
      (by show (T.pageCount == T.pageCount) = true; exact beq_self_eq_true _)]
  have hresTT_old : ∀ x : Nat, x ≠ T.pageCount →
      resolvePair (moveTargetInsert pos T (moveTargetAlloc src i S T T)) x
        = resolvePair T x := by
    intro x hx
    unfold resolvePair
    rw [hTT_recs, List.find?_append]
    rw [List.find?_cons_of_neg (p := fun p : ImportedPage => p.newIndex == x) _
      (by show ¬ (T.pageCount == x) = true; simp only [beq_iff_eq]; exact fun he => hx he.symm)]
    rw [show (List.find? (fun p : ImportedPage => p.newIndex == x) []) = none from rfl]
    rw [Option.or_none]
    cases hf : T.importedPages.find? (fun p => p.newIndex == x) with
    | some r => rfl
    | none => rfl
  have hresSS : ∀ x : Nat, resolvePair (moveSourceDrop i S) x = resolvePair S x :=
    fun x => resolvePair_congr rfl rfl x
  have hnores : ∀ g ∈ s.uploadedFiles, ∀ b ∈ g.pageOrder, ¬(g = S ∧ b = i) →
      resolvePair g b ≠ (src, i) := by
    intro g hg b hb hnot hres
    cases hfind : g.importedPages.find? (fun p => p.newIndex == b) with
    | some r =>
      simp only [resolvePair, hfind] at hres
      have h1 : r.sourceFileId = src := (Prod.ext_iff.1 hres).1
      have h2 : r.sourcePageIndex = i := (Prod.ext_iff.1 hres).2
      have := h.tgtDead g hg r (List.mem_of_find?_eq_some hfind) S hSmem
        (hSid.trans h1.symm)
      rw [h2] at this
      exact this hi
    | none =>
      simp only [resolvePair, hfind] at hres
      have h1 : g.id = src := (Prod.ext_iff.1 hres).1
      have h2 : b = i := (Prod.ext_iff.1 hres).2
      exact hnot ⟨huniqS g hg h1, h2⟩
  have hlive2 : ∀ f ∈ s.uploadedFiles,
      ∀ a ∈ (moveSubst src tgt i pos S T f).pageOrder,
      (f = T ∧ a = T.pageCount ∧
        resolvePair (moveSubst src tgt i pos S T f) a = (src, i))
      ∨ (a ∈ f.pageOrder ∧ ¬(f = S ∧ a = i) ∧
        resolvePair (moveSubst src tgt i pos S T f) a = resolvePair f a) := by
    intro f hf a ha
    rcases htri f hf with ⟨hfT, hsf⟩ | ⟨hfS, hsf⟩ | ⟨hnT, hnS, hsf⟩
    · rw [hsf, hTT_order] at ha
      rcases (mem_insert_take_drop pos).1 ha with rfl | ha2
      · exact Or.inl ⟨hfT, rfl, by rw [hsf]; exact hresTT_new⟩
      · have hax : a ≠ T.pageCount := by
          intro he
          exact hn_notmem (he ▸ ha2)
        refine Or.inr ⟨hfT ▸ ha2, ?_, ?_⟩
        · intro hcon
          exact hST (hcon.1.symm.trans hfT)
        · rw [hsf, hfT, hresTT_old a hax]
    · rw [hsf, hSS_order] at ha
      have h1 := List.mem_filter.1 ha
      have hai : a ≠ i := by
        have h2 := h1.2
        simp only [Bool.not_eq_eq_eq_not, Bool.not_true, beq_eq_false_iff_ne] at h2
        exact h2
      refine Or.inr ⟨hfS ▸ h1.1, fun hcon => hai hcon.2, ?_⟩
      rw [hsf, hfS, hresSS]
    · rw [hsf] at ha ⊢
      exact Or.inr ⟨ha, fun hcon => hnS hcon.1, rfl⟩
  have hrecs2 : ∀ f ∈ s.uploadedFiles,
      (moveSubst src tgt i pos S T f).importedPages = f.importedPages
      ∨ (f = T ∧ (moveSubst src tgt i pos S T f).importedPages
          = T.importedPages ++ [⟨T.pageCount, src, i⟩]) := by
    intro f hf
    rcases htri f hf with ⟨hfT, hsf⟩ | ⟨hfS, hsf⟩ | ⟨_, _, hsf⟩
    · exact Or.inr ⟨hfT, by rw [hsf, hTT_recs]⟩
    · refine Or.inl ?_
      rw [hsf, hfS]
      rfl
    · exact Or.inl (by rw [hsf])
  have hpc2 : ∀ f ∈ s.uploadedFiles,
      f.pageCount ≤ (moveSubst src tgt i pos S T f).pageCount ∧
      (moveSubst src tgt i pos S T f).pageCount ≤ f.pageCount + 1 := by
    intro f hf
    rcases htri f hf with ⟨hfT, hsf⟩ | ⟨hfS, hsf⟩ | ⟨_, _, hsf⟩
    · rw [hsf, hTT_pc, hfT]
      omega
    · rw [hsf, hfS]
      exact ⟨le_refl _, Nat.le_succ _⟩
    · rw [hsf]
      exact ⟨le_refl _, Nat.le_succ _⟩
  have hmem2 : ∀ {f' : FileDoc}, f' ∈ (movePage s src tgt i pos).uploadedFiles →
      ∃ f ∈ s.uploadedFiles, f' = moveSubst src tgt i pos S T f := by
    intro f' hf'
    rw [hfiles] at hf'
    obtain ⟨f, hf, rfl⟩ := List.mem_map.1 hf'
    exact ⟨f, hf, rfl⟩
  refine ⟨?_, ?_, ?_, ?_, ?_, ?_, ?_, List.nodup_nil, ?_⟩
  · show ((movePage s src tgt i pos).uploadedFiles.map FileDoc.id).Nodup
    rw [hfiles, map_id_of_preserving _ _ (moveSubst_id src tgt i pos S T)]
    exact h.idsNodup
  · intro f' hf'
    obtain ⟨f, hf, rfl⟩ := hmem2 hf'
    rcases htri f hf with ⟨hfT, hsf⟩ | ⟨hfS, hsf⟩ | ⟨_, _, hsf⟩
    · rw [hsf, hTT_order]
      exact nodup_insert_take_drop pos (h.orderNodup T hTmem) hn_notmem
    · rw [hsf, hSS_order]
      exact (h.orderNodup S hSmem).filter _
    · rw [hsf]
      exact h.orderNodup f hf
  · intro f' hf' a ha
    obtain ⟨f, hf, rfl⟩ := hmem2 hf'
    rcases htri f hf with ⟨hfT, hsf⟩ | ⟨hfS, hsf⟩ | ⟨_, _, hsf⟩
    · rw [hsf, hTT_order] at ha
      rw [hsf, hTT_pc]
      rcases (mem_insert_take_drop pos).1 ha with rfl | ha2
      · omega
      · have := h.orderLt T hTmem a ha2
        omega
    · rw [hsf, hSS_order] at ha
      rw [hsf]
      show a < S.pageCount
      exact h.orderLt S hSmem a (List.mem_of_mem_filter ha)
    · rw [hsf] at ha ⊢
      exact h.orderLt f hf a ha
  · intro f' hf' r hr
    obtain ⟨f, hf, rfl⟩ := hmem2 hf'
    rcases htri f hf with ⟨hfT, hsf⟩ | ⟨hfS, hsf⟩ | ⟨_, _, hsf⟩
    · rw [hsf, hTT_recs] at hr
      rw [hsf, hTT_pc]
      rcases List.mem_append.1 hr with hr | hr
      · have := h.recLt T hTmem r hr
        omega
      · have : r = ⟨T.pageCount, src, i⟩ := List.mem_singleton.1 hr
        rw [this]
        exact Nat.lt_succ_self _
    · rw [hsf] at hr ⊢
      show r.newIndex < S.pageCount
      exact h.recLt S hSmem r hr
    · rw [hsf] at hr ⊢
      exact h.recLt f hf r hr
  · intro f' hf' r hr g' hg' hgid
    obtain ⟨f, hf, rfl⟩ := hmem2 hf'
    obtain ⟨g, hg, rfl⟩ := hmem2 hg'
    rw [moveSubst_id src tgt i pos S T g] at hgid
    have hgpc := (hpc2 g hg).1
    rcases hrecs2 f hf with hrf | ⟨hfT, hrf⟩
    · rw [hrf] at hr
      have := h.tgtLt f hf r hr g hg hgid
      omega
    · rw [hrf] at hr
      rcases List.mem_append.1 hr with hr | hr
      · have := h.tgtLt T hTmem r hr g hg hgid
        omega
      · have hreq : r = ⟨T.pageCount, src, i⟩ := List.mem_singleton.1 hr
        have hgS : g = S := huniqS g hg (by rw [hgid, hreq])
        have : i < S.pageCount := h.orderLt S hSmem i hi
        rcases htri g hg with ⟨hgT2, hsg⟩ | ⟨hgS2, hsg⟩ | ⟨_, _, hsg⟩
        · exact absurd (hgS.symm.trans hgT2) hST
        · rw [hsg, hreq]
          show i < S.pageCount
          exact this
        · rw [hsg, hgS, hreq]
          exact this
  · intro f' hf' r hr g' hg' hgid
    obtain ⟨f, hf, rfl⟩ := hmem2 hf'
    obtain ⟨g, hg, rfl⟩ := hmem2 hg'
    rw [moveSubst_id src tgt i pos S T g] at hgid
    intro hmem3
    rcases hlive2 g hg r.sourcePageIndex hmem3 with ⟨hgT, hidx, _⟩ | ⟨hidx, _, _⟩
    · -- the live index is the fresh target index; no record can point at it
      rcases hrecs2 f hf with hrf | ⟨hfT, hrf⟩
      · rw [hrf] at hr
        have := h.tgtLt f hf r hr g hg hgid
        rw [hgT] at this
        omega
      · rw [hrf] at hr
        rcases List.mem_append.1 hr with hr | hr
        · have := h.tgtLt T hTmem r hr g hg hgid
          rw [hgT] at this
          omega
        · have hreq : r = ⟨T.pageCount, src, i⟩ := List.mem_singleton.1 hr
          have hgS : g = S := huniqS g hg (by rw [hgid, hreq])
          exact hST (hgS ▸ hgT)
    · -- the live index existed before the move: contradict the old invariant
      rcases hrecs2 f hf with hrf | ⟨hfT, hrf⟩
      · rw [hrf] at hr
        exact h.tgtDead f hf r hr g hg hgid hidx
      · rw [hrf] at hr
        rcases List.mem_append.1 hr with hr | hr
        · exact h.tgtDead T hTmem r hr g hg hgid hidx
        · have hreq : r = ⟨T.pageCount, src, i⟩ := List.mem_singleton.1 hr
          have hgS : g = S := huniqS g hg (by rw [hgid, hreq])
          rcases htri g hg with ⟨hgT2, hsg⟩ | ⟨hgS2, hsg⟩ | ⟨hnT, hnS, hsg⟩
          · exact hST (hgS.symm.trans hgT2)
          · rw [hsg, hSS_order] at hmem3
            have h2 := (List.mem_filter.1 hmem3).2
            rw [hreq] at h2
            simp at h2
          · exact hnS hgS
  · intro f' hf' g' hg' a ha b hb hres
    obtain ⟨f, hf, rfl⟩ := hmem2 hf'
    obtain ⟨g, hg, rfl⟩ := hmem2 hg'
    rcases hlive2 f hf a ha with ⟨hfT, haN, he1⟩ | ⟨haf, hnaf, he1⟩ <;>
      rcases hlive2 g hg b hb with ⟨hgT, hbN, he2⟩ | ⟨hbg, hnbg, he2⟩
    · constructor
      · rw [hfT, hgT]
      · rw [haN, hbN]
    · exfalso
      rw [he1, he2] at hres
      exact hnores g hg b hbg hnbg hres.symm
    · exfalso
      rw [he1, he2] at hres
      exact hnores f hf a haf hnaf hres
    · rw [he1, he2] at hres
      obtain ⟨rfl, rfl⟩ := h.inj f hf g hg a haf b hbg hres
      exact ⟨rfl, rfl⟩
  · intro e he
    exact absurd he (List.not_mem_nil e)

theorem inv_step {s t : AppState} (h : Inv s) (hst : Step s t) : Inv t := by
  cases hst with
  | add id pc hfresh hrec => exact inv_addFile h id pc hfresh hrec
  | remove fid => exact inv_removeFile h fid
  | del fid i => exact inv_deletePage h fid i
  | rot fid i d => exact inv_rotatePage h fid i d
  | move src tgt i pos hne hlive =>
    have h2 := inv_buildGlobalPageOrder (inv_move_core h src tgt i pos hne hlive)
    have heq : buildGlobalPageOrder
        (⟨(movePage s src tgt i pos).uploadedFiles, []⟩ : AppState)
        = buildGlobalPageOrder (movePage s src tgt i pos) := rfl
    rw [heq] at h2
    exact h2
  | rebuild => exact inv_buildGlobalPageOrder h

theorem inv_reachable {s : AppState} (h : Reachable s) : Inv s := by
  induction h with
  | init =>
    refine ⟨List.nodup_nil, ?_, ?_, ?_, ?_, ?_, ?_, List.nodup_nil, ?_⟩ <;>
      intro x hx <;> exact absurd hx (List.not_mem_nil x)
  | step hr hst ih => exact inv_step ih hst

theorem nodup_filterMap_on {α β : Type} (l : List α) (F : α → Option β)
    (hl : l.Nodup)
    (hinj : ∀ a ∈ l, ∀ b ∈ l, ∀ c, F a = some c → F b = some c → a = b) :
    (l.filterMap F).Nodup := by
  induction l with
  | nil => exact List.nodup_nil
  | cons x xs ih =>
    rw [List.nodup_cons] at hl
    rw [List.filterMap_cons]
    have hinj2 : ∀ a ∈ xs, ∀ b ∈ xs, ∀ c, F a = some c → F b = some c → a = b :=
      fun a ha b hb c h1 h2 =>
        hinj a (List.mem_cons_of_mem x ha) b (List.mem_cons_of_mem x hb) c h1 h2
    cases hF : F x with
    | none => exact ih hl.2 hinj2
    | some c =>
      rw [List.nodup_cons]
      refine ⟨?_, ih hl.2 hinj2⟩
      intro hc
      obtain ⟨y, hy, hyc⟩ := List.mem_filterMap.1 hc
      have hxy : x = y := hinj x (List.mem_cons_self x xs) y
        (List.mem_cons_of_mem x hy) c hF hyc
      exact hl.1 (hxy ▸ hy)

theorem mergeFlattened_pairs_nodup {s : AppState} (h : Inv s) :
    ((mergeFlattened s).map (fun o => (o.docId, o.physIndex))).Nodup := by
  unfold mergeFlattened
  rw [flattenLoop_eq_filterMap, List.map_filterMap]
  apply nodup_filterMap_on _ _ h.globNodup
  intro a ha b hb c h1 h2
  obtain ⟨oa, hoa, hpa⟩ := Option.map_eq_some'.1 h1
  obtain ⟨ob, hob, hpb⟩ := Option.map_eq_some'.1 h2
  obtain ⟨fa, hfa, hda, hxa, _⟩ := resolveGlobalEntry_some hoa
  obtain ⟨fb, hfb, hdb, hxb, _⟩ := resolveGlobalEntry_some hob
  have hpair : (oa.docId, oa.physIndex) = (ob.docId, ob.physIndex) := by
    rw [hpa, hpb]
  have hd : (resolvePair fa a.2).1 = (resolvePair fb b.2).1 := by
    rw [← hda, ← hdb]
    exact (Prod.ext_iff.1 hpair).1
  have hx : ((resolvePair fa a.2).2 : Int) = ((resolvePair fb b.2).2 : Int) := by
    rw [← hxa, ← hxb]
    exact (Prod.ext_iff.1 hpair).2
  have hx2 : (resolvePair fa a.2).2 = (resolvePair fb b.2).2 := by exact_mod_cast hx
  have hres : resolvePair fa a.2 = resolvePair fb b.2 := Prod.ext hd hx2
  have hamem : a.2 ∈ fa.pageOrder :=
    h.globLive a ha fa (getFile_mem hfa) (getFile_id hfa)
  have hbmem : b.2 ∈ fb.pageOrder :=
    h.globLive b hb fb (getFile_mem hfb) (getFile_id hfb)
  obtain ⟨hfe, hie⟩ := h.inj fa (getFile_mem hfa) fb (getFile_mem hfb)
    a.2 hamem b.2 hbmem hres
  have h1a : a.1 = fa.id := (getFile_id hfa).symm
  have h1b : b.1 = fb.id := (getFile_id hfb).symm
  refine Prod.ext ?_ hie
  rw [h1a, h1b, hfe]

/-! ## Concrete scenario states -/

/-- Two freshly uploaded one-page documents a and b. -/
def twoDocs : AppState :=
  addFile (addFile ⟨[], []⟩ (mkFileData "a" 1)) (mkFileData "b" 1)

/-- twoDocs after dragging the page of a into b. -/
def afterMoveAB : AppState := performCrossFileImport twoDocs "a" "b" 0

/-- afterMoveAB after dragging the same page back into a: the import
record of a now points at the logical index 1 of b, not at the physical
page (a, 0). -/
def afterRoundTrip : AppState := performCrossFileImport afterMoveAB "b" "a" 1

/-- twoDocs with the pages view order rebuilt after a move of the page
of a into b at position 1. -/
def movedBuilt : AppState := buildGlobalPageOrder (movePage twoDocs "a" "b" 0 1)

/-- twoDocs with the pages view order rebuilt. -/
def twoDocsBuilt : AppState := buildGlobalPageOrder twoDocs

theorem reach_twoDocs : Reachable twoDocs := by
  have h0 : Reachable ⟨[], []⟩ := Reachable.init
  have h1 : Reachable (addFile ⟨[], []⟩ (mkFileData "a" 1)) :=
    Reachable.step h0 (Step.add _ "a" 1 (by decide) (by decide))
  exact Reachable.step h1 (Step.add _ "b" 1 (by decide) (by decide))

theorem reach_twoDocsBuilt : Reachable twoDocsBuilt :=
  Reachable.step reach_twoDocs (Step.rebuild twoDocs)

theorem reach_movedBuilt : Reachable movedBuilt := by
  refine Reachable.step reach_twoDocs (Step.move _ "a" "b" 0 1 (by decide) ?_)
  intro f hf
  have he : getFile twoDocs "a" = some (mkFileData "a" 1) := by decide
  rw [he] at hf
  have hfe : mkFileData "a" 1 = f := Option.some.inj hf
  rw [← hfe]
  decide

/-! ## Claim theorems -/

/-- C1: the spec requires the import record created by a second move to
point at the original physical owner (single hop), so that an A to B to
A round trip resolves to the original (documentId, physicalIndex).
The code does naive chaining instead: after the round trip the import
record of a is {newIndex 1, sourceFileId b, sourcePageIndex 1}, where 1
is a logical import index of b and not a physical page of b (b has one
physical page, index 0), and composition resolves the moved page to
(b, 1) instead of (a, 0). This theorem evaluates the embedded code on
that failing input. -/
theorem c1_roundtrip_naive_chaining :
    mergeByFile twoDocs
      = [⟨"a", 0, 0⟩, ⟨"b", 0, 0⟩]
    ∧ mergeByFile afterRoundTrip
      = [⟨"b", 1, 0⟩, ⟨"b", 0, 0⟩]
    ∧ (getFile afterRoundTrip "a").map FileDoc.importedPages
      = some [⟨1, "b", 1⟩]
    ∧ (getFile afterRoundTrip "b").map FileDoc.pageCount = some 2
    ∧ (mkFileData "b" 1).pageCount = 1
    ∧ (⟨"b", 1, 0⟩ : OutputPage) ≠ ⟨"a", 0, 0⟩ := by
  decide

/-- C2: for every state reachable from the empty working set by
addFile, removeFile, deletePage, rotatePage, cross-file page moves (of
a live page, between distinct files, as the UI performs them) and
global-order rebuilds, the (documentId, physicalIndex) pairs emitted by
flattened-mode composition contain no duplicates. -/
theorem c2_flattened_no_duplicates {s : AppState} (h : Reachable s) :
    ((mergeFlattened s).map (fun o => (o.docId, o.physIndex))).Nodup :=
  mergeFlattened_pairs_nodup (inv_reachable h)

/-- Witness for C2 at a concrete reachable state. -/
theorem c2_flattened_no_duplicates_witness :
    ((mergeFlattened movedBuilt).map (fun o => (o.docId, o.physIndex))).Nodup :=
  c2_flattened_no_duplicates reach_movedBuilt

/-- C3 counterexample: with pageCount 0 the clause 1 still emits page
index 0, which is not in the empty range, so parseRules is not
range-safe at pageCount 0 as the claim states. -/
theorem c3_counterexample :
    parseRules "1" 0 = [⟨0, 0⟩]
    ∧ ¬ (∀ r ∈ parseRules "1" 0, 0 ≤ r.page ∧ r.page < ((0 : Nat) : Int)) := by
  decide

/-- C3 (amended): parseRules is total by construction (it is a Lean
function), and for every rule text and every pageCount of at least 1,
every returned page index lies in the half-open range from 0 to
pageCount; at pageCount 0 a matching clause emits the out-of-range
index 0. -/
theorem c3_parse_total_in_range (rulesStr : String) (pageCount : Nat)
    (hpc : 1 ≤ pageCount) :
    ∀ r ∈ parseRules rulesStr pageCount,
      0 ≤ r.page ∧ r.page < (pageCount : Int) :=
  fun r hr => parseRulesL_bounds rulesStr.data pageCount hpc r hr

/-- Witness for C3 at a concrete rule text. -/
theorem c3_parse_total_in_range_witness :
    0 ≤ (⟨0, 0⟩ : SelectionRule).page
    ∧ (⟨0, 0⟩ : SelectionRule).page < ((5 : Nat) : Int) :=
  c3_parse_total_in_range "1..3" 5 (by decide) ⟨0, 0⟩ (by decide)

/-- C4 counterexample: a move whose source logical index 5 is not in
the source pageOrder (which is [0]) is not rejected: the operator still
mutates the state (the target gains an import record and a page). -/
theorem c4_counterexample :
    (getFile twoDocs "a").map FileDoc.pageOrder = some [0]
    ∧ (5 : Nat) ∉ ([0] : List Nat)
    ∧ performCrossFileImport twoDocs "a" "b" 5 ≠ twoDocs
    ∧ (getFile (performCrossFileImport twoDocs "a" "b" 5) "b").map
        FileDoc.importedPages = some [⟨1, "a", 5⟩] := by
  decide

/-- C4 (amended): the move operator rejects the call and leaves the
state unchanged exactly when the source or the target document does not
exist; a move with a stale source logical index still mutates. -/
theorem c4_move_missing_doc_rejected (s : AppState) (src tgt : String)
    (i pos : Nat) (h : getFile s src = none ∨ getFile s tgt = none) :
    movePage s src tgt i pos = s := by
  rcases h with h | h
  · simp only [movePage, h]
  · cases h1 : getFile s src with
    | none => simp only [movePage, h1]
    | some S => simp only [movePage, h1, h]

/-- Witness for C4 at a concrete missing target. -/
theorem c4_move_missing_doc_rejected_witness :
    movePage twoDocs "a" "c" 0 0 = twoDocs :=
  c4_move_missing_doc_rejected twoDocs "a" "c" 0 0 (Or.inr (by decide))

/-- Document a of the C5 counterexample: two own pages, one page
imported from b (logical index 2), rule text 3. -/
def c5State : AppState :=
  updateFileRules
    (performCrossFileImport
      (addFile (addFile ⟨[], []⟩ (mkFileData "a" 2)) (mkFileData "b" 1))
      "b" "a" 0)
    "a" "3"

/-- C5 counterexample: document a has non-empty rule text 3 and an
imported page at logical index 2; the rule selects index 2 and the
emitted page resolves through importedPages to (b, 0), a physical page
of another document, contradicting the claim that rule-selected indices
never resolve through importedPages. -/
theorem c5_counterexample :
    (getFile c5State "a").map FileDoc.rules = some "3"
    ∧ (getFile c5State "a").map
        (fun f => (f.rules.data.filter (fun c => !c.isWhitespace)).isEmpty)
      = some false
    ∧ (getFile c5State "a").map (fun f => mergeFile c5State f)
      = some [⟨"b", 0, 0⟩]
    ∧ ("b" : String) ≠ "a" := by
  decide

/-- C5 (amended): in by-document composition with non-empty rule text
the selection comes from the rule parser, and each selected index is
resolved through the document's importedPages exactly like a pageOrder
entry: an emitted page is the document's own physical page when the
selected index has no import record, and is the import record's target
otherwise; in particular for a document with no importedPages entries
every rule-emitted page is its own. -/
theorem c5_rules_resolution (s : AppState) (f : FileDoc)
    (hrules : ¬ (f.rules.data.filter (fun c => !c.isWhitespace)).isEmpty = true) :
    mergeFile s f = (parseRules f.rules f.pageCount).filterMap (resolveRuleEntry s f)
    ∧ (∀ o ∈ mergeFile s f,
        o.docId = f.id ∨ ∃ r ∈ f.importedPages,
          o.docId = r.sourceFileId ∧ o.physIndex = (r.sourcePageIndex : Int))
    ∧ (f.importedPages = [] → ∀ o ∈ mergeFile s f, o.docId = f.id) := by
  have hchar : ∀ o ∈ mergeFile s f,
      ∃ rule, resolveRuleEntry s f rule = some o := by
    intro o ho
    unfold mergeFile at ho
    rw [ruleLoop_eq_filterMap] at ho
    obtain ⟨rule, _, hres⟩ := List.mem_filterMap.1 ho
    exact ⟨rule, hres⟩
  refine ⟨?_, ?_, ?_⟩
  · unfold mergeFile pagesToProcess
    rw [if_neg hrules, ruleLoop_eq_filterMap]
  · intro o ho
    obtain ⟨rule, hres⟩ := hchar o ho
    cases hip : f.importedPages.find? (fun p => (p.newIndex : Int) == rule.page) with
    | none =>
      simp only [resolveRuleEntry, hip, Option.some.injEq] at hres
      exact Or.inl (by rw [← hres])
    | some ip =>
      cases hsrc : getFile s ip.sourceFileId with
      | none =>
        simp only [resolveRuleEntry, hip, hsrc] at hres
        exact Option.noConfusion hres
      | some srcFile =>
        simp only [resolveRuleEntry, hip, hsrc, Option.some.injEq] at hres
        refine Or.inr ⟨ip, List.mem_of_find?_eq_some hip, ?_, ?_⟩
        · rw [← hres]
          exact getFile_id hsrc
        · rw [← hres]
  · intro hemp o ho
    obtain ⟨rule, hres⟩ := hchar o ho
    simp only [resolveRuleEntry, hemp, List.find?_nil, Option.some.injEq] at hres
    rw [← hres]

/-- A one-page document with rule text 1 used as the C5 witness. -/
def plainRuleDoc : FileDoc := ⟨"a", 1, "1", [(0, 0)], [0], []⟩

/-- Witness for C5 at a concrete document without imports. -/
theorem c5_rules_resolution_witness :
    (⟨"a", 0, 0⟩ : OutputPage).docId = plainRuleDoc.id :=
  (c5_rules_resolution ⟨[], []⟩ plainRuleDoc (by decide)).2.2 (by decide)
    ⟨"a", 0, 0⟩ (by decide)

/-- C6: both composition modes are exactly the resolvable entries in
iteration order (a continue skips one entry and the loop goes on), and
an entry is unresolvable exactly when it references a document that is
no longer in the working set: a missing entry file, or an import record
whose source document was removed. Such entries produce no output and
no error, and all remaining entries still produce theirs. -/
theorem c6_dangling_entries_skipped (s : AppState) :
    mergeFlattened s = s.globalPageOrder.filterMap (resolveGlobalEntry s)
    ∧ mergeByFile s = s.uploadedFiles.flatMap
        (fun f => (pagesToProcess f).filterMap (resolveRuleEntry s f))
    ∧ (∀ e : String × Nat, getFile s e.1 = none → resolveGlobalEntry s e = none)
    ∧ (∀ (e : String × Nat) (f : FileDoc) (ip : ImportedPage),
        getFile s e.1 = some f →
        f.importedPages.find? (fun p => p.newIndex == e.2) = some ip →
        getFile s ip.sourceFileId = none → resolveGlobalEntry s e = none)
    ∧ (∀ (f : FileDoc) (rule : SelectionRule) (ip : ImportedPage),
        f.importedPages.find? (fun p => (p.newIndex : Int) == rule.page) = some ip →
        getFile s ip.sourceFileId = none → resolveRuleEntry s f rule = none) := by
  refine ⟨?_, ?_, ?_, ?_, ?_⟩
  · exact flattenLoop_eq_filterMap s s.globalPageOrder
  · unfold mergeByFile mergeFile
    simp only [ruleLoop_eq_filterMap]
  · intro e he
    simp only [resolveGlobalEntry, he]
  · intro e f ip hgf hip hsrc
    simp only [resolveGlobalEntry, hgf, hip, hsrc]
  · intro f rule ip hip hsrc
    simp only [resolveRuleEntry, hip, hsrc]

/-- afterMoveAB with document a removed and the global order rebuilt:
document b holds an import record whose source document a is gone. -/
def danglingState : AppState := buildGlobalPageOrder (removeFile afterMoveAB "a")

/-- Witness for C6 at a concrete state with a dangling import. -/
theorem c6_dangling_entries_skipped_witness :
    resolveGlobalEntry danglingState ("b", 1) = none
    ∧ mergeFlattened danglingState
      = danglingState.globalPageOrder.filterMap (resolveGlobalEntry danglingState)
    ∧ mergeFlattened danglingState = [⟨"b", 0, 0⟩] :=
  ⟨(c6_dangling_entries_skipped danglingState).2.2.2.1 ("b", 1)
      ⟨"b", 2, "", [(1, 0), (0, 0)], [0, 1], [⟨1, "a", 0⟩]⟩ ⟨1, "a", 0⟩
      (by decide) (by decide) (by decide),
    (c6_dangling_entries_skipped danglingState).1,
    by decide⟩

/-- C7: in by-document composition with non-empty rule text the pages
to process are the rule-parser output, and every emitted page carries
rotation equal to the rule rotation plus the rotation stored for the
selected index in pageRotations: the rule-derived rotation is added to
the stored one, never substituted for it. -/
theorem c7_rule_rotation_additive (s : AppState) (f : FileDoc)
    (hrules : ¬ (f.rules.data.filter (fun c => !c.isWhitespace)).isEmpty = true) :
    mergeFile s f
      = (parseRules f.rules f.pageCount).filterMap (resolveRuleEntry s f)
    ∧ ∀ (rule : SelectionRule) (o : OutputPage),
        resolveRuleEntry s f rule = some o →
        o.rotation = rule.rotation + rotGetI f.pageRotations rule.page := by
  constructor
  · unfold mergeFile pagesToProcess
    rw [if_neg hrules, ruleLoop_eq_filterMap]
  · intro rule o hres
    cases hip : f.importedPages.find? (fun p => (p.newIndex : Int) == rule.page) with
    | none =>
      simp only [resolveRuleEntry, hip, Option.some.injEq] at hres
      rw [← hres]
    | some ip =>
      cases hsrc : getFile s ip.sourceFileId with
      | none =>
        simp only [resolveRuleEntry, hip, hsrc] at hres
        exact Option.noConfusion hres
      | some srcFile =>
        simp only [resolveRuleEntry, hip, hsrc, Option.some.injEq] at hres
        rw [← hres]

/-- A one-page document with a stored rotation of 90 and rule text that
asks for another 90 degrees, used as the C7 witness. -/
def rotatedRuleDoc : FileDoc := ⟨"a", 1, "1>", [(0, 90)], [0], []⟩

/-- Witness for C7: the emitted rotation is 90 plus the stored 90. -/
theorem c7_rule_rotation_additive_witness :
    mergeFile ⟨[], []⟩ rotatedRuleDoc
      = (parseRules rotatedRuleDoc.rules rotatedRuleDoc.pageCount).filterMap
          (resolveRuleEntry ⟨[], []⟩ rotatedRuleDoc)
    ∧ (⟨"a", 0, 180⟩ : OutputPage).rotation
      = (⟨0, 90⟩ : SelectionRule).rotation
        + rotGetI rotatedRuleDoc.pageRotations (⟨0, 90⟩ : SelectionRule).page :=
  ⟨(c7_rule_rotation_additive ⟨[], []⟩ rotatedRuleDoc (by decide)).1,
    (c7_rule_rotation_additive ⟨[], []⟩ rotatedRuleDoc (by decide)).2
      ⟨0, 90⟩ ⟨"a", 0, 180⟩ (by decide)⟩

/-- A one-page document a with rule text 1: rules ignore pageOrder, so
composition still emits page 0 after it is deleted. -/
def c8State : AppState :=
  deletePage (updateFileRules (addFile ⟨[], []⟩ (mkFileData "a" 1)) "a" "1") "a" 0

/-- C8 counterexample: after deletePage the pageOrder of a is empty,
yet by-document composition still emits the deleted physical page
(a, 0) via document a, because its non-empty rule text bypasses
pageOrder entirely. -/
theorem c8_counterexample :
    (getFile c8State "a").map FileDoc.pageOrder = some []
    ∧ mergeByFile c8State = [⟨"a", 0, 0⟩] := by
  decide

/-- C8 (amended): deletePage removes exactly the deleted index from the
file's pageOrder, leaving its pageRotations, importedPages and
pageCount unchanged (the updated file is the old record with only
pageOrder filtered), leaves every other file untouched, and drops only
the matching global-order entry. Afterwards, in a reachable state,
neither flattened composition nor by-document composition with empty
rule text emits the deleted page's physical page via the deleting
document; rule-text composition ignores pageOrder and can still select
it. -/
theorem c8_delete_permanent (s : AppState) (fid : String) (i : Nat)
    (F : FileDoc) (hr : Reachable s) (hgf : getFile s fid = some F)
    (hi : i ∈ F.pageOrder) :
    getFile (deletePage s fid i) fid
      = some { F with pageOrder := F.pageOrder.filter (fun j => !(j == i)) }
    ∧ (∀ fid2, fid2 ≠ fid →
        getFile (deletePage s fid i) fid2 = getFile s fid2)
    ∧ (deletePage s fid i).globalPageOrder
      = s.globalPageOrder.filter (fun e => !(e.1 == fid && e.2 == i))
    ∧ (∀ e ∈ (deletePage s fid i).globalPageOrder, e.1 = fid →
        ∀ o, resolveGlobalEntry (deletePage s fid i) e = some o →
          (o.docId, o.physIndex)
            ≠ ((resolvePair F i).1, ((resolvePair F i).2 : Int)))
    ∧ ((F.rules.data.filter (fun c => !c.isWhitespace)).isEmpty = true →
        ∀ F2, getFile (deletePage s fid i) fid = some F2 →
        ∀ o ∈ mergeFile (deletePage s fid i) F2,
          (o.docId, o.physIndex)
            ≠ ((resolvePair F i).1, ((resolvePair F i).2 : Int))) := by
  have h := inv_reachable hr
  have hFmem : F ∈ s.uploadedFiles := getFile_mem hgf
  have hFid : F.id = fid := getFile_id hgf
  have hdel : deletePage s fid i
      = ⟨updateFirst s.uploadedFiles fid
          (fun f => { f with pageOrder := f.pageOrder.filter (fun j => !(j == i)) }),
        s.globalPageOrder.filter (fun e => !(e.1 == fid && e.2 == i))⟩ := by
    simp only [deletePage, hgf]
  have hself : getFile (deletePage s fid i) fid
      = some { F with pageOrder := F.pageOrder.filter (fun j => !(j == i)) } := by
    rw [hdel]
    exact updateFirst_find?_self _ (fun f => rfl) hgf
  have hrespair : ∀ x : Nat,
      resolvePair { F with pageOrder := F.pageOrder.filter (fun j => !(j == i)) } x
        = resolvePair F x :=
    fun x => resolvePair_congr rfl rfl x
  have hinjF : ∀ x ∈ F.pageOrder, x ≠ i →
      resolvePair F x ≠ resolvePair F i := by
    intro x hx hxi hres
    exact hxi (h.inj F hFmem F hFmem x hx i hi hres).2
  refine ⟨hself, ?_, ?_, ?_, ?_⟩
  · intro fid2 hne
    rw [hdel]
    exact updateFirst_find?_other _ (fun f => rfl) hne
  · rw [hdel]
  · intro e he hefid o hres
    have he2 : e ∈ s.globalPageOrder := by
      rw [hdel] at he
      exact List.mem_of_mem_filter he
    have hcond : (!(e.1 == fid && e.2 == i)) = true := by
      rw [hdel] at he
      exact List.of_mem_filter (p := fun e : String × Nat => !(e.1 == fid && e.2 == i))
        (show e ∈ s.globalPageOrder.filter
          (fun e => !(e.1 == fid && e.2 == i)) from he)
    have hei : e.2 ≠ i := by
      intro hei
      rw [Bool.not_eq_eq_eq_not, Bool.not_true, Bool.and_eq_false_iff] at hcond
      rcases hcond with hc | hc
      · rw [hefid] at hc
        simp at hc
      · rw [hei] at hc
        simp at hc
    obtain ⟨fe, hfe, hda, hxa, _⟩ := resolveGlobalEntry_some hres
    rw [hefid, hself] at hfe
    have hfe2 := Option.some.inj hfe
    intro hpair
    have h1 : o.docId = (resolvePair F e.2).1 := by
      rw [hda, ← hfe2, hrespair]
    have h2 : o.physIndex = ((resolvePair F e.2).2 : Int) := by
      rw [hxa, ← hfe2, hrespair]
    have hlivee : e.2 ∈ F.pageOrder :=
      h.globLive e he2 F hFmem (hFid.trans hefid.symm)
    rw [Prod.mk.injEq] at hpair
    refine hinjF e.2 hlivee hei (Prod.ext ?_ ?_)
    · have h3 := hpair.1
      rw [h1] at h3
      exact h3
    · have h3 := hpair.2
      rw [h2] at h3
      exact_mod_cast h3
  · intro hempty F2 hF2 o ho
    rw [hself] at hF2
    have hF2e := Option.some.inj hF2
    unfold mergeFile at ho
    rw [ruleLoop_eq_filterMap] at ho
    obtain ⟨rule, hrule, hres⟩ := List.mem_filterMap.1 ho
    have hppempty : pagesToProcess F2
        = F2.pageOrder.map (fun j : Nat => ⟨(j : Int), 0⟩) := by
      unfold pagesToProcess
      rw [if_pos (by rw [← hF2e]; exact hempty)]
    rw [hppempty] at hrule
    obtain ⟨j, hj, rfl⟩ := List.mem_map.1 hrule
    have hj2 : j ∈ F.pageOrder ∧ j ≠ i := by
      rw [← hF2e] at hj
      have h1 := List.mem_filter.1 hj
      refine ⟨h1.1, ?_⟩
      have h2 := h1.2
      simp only [Bool.not_eq_eq_eq_not, Bool.not_true, beq_eq_false_iff_ne] at h2
      exact h2
    obtain ⟨hdo, hxo⟩ := resolveRuleEntry_natCast hres
    intro hpair
    have hrp2 : resolvePair F2 j = resolvePair F j := by
      rw [← hF2e, hrespair]
    rw [Prod.mk.injEq] at hpair
    refine hinjF j hj2.1 hj2.2 (Prod.ext ?_ ?_)
    · have h3 := hpair.1
      rw [hdo, hrp2] at h3
      exact h3
    · have h3 := hpair.2
      rw [hxo, hrp2] at h3
      exact_mod_cast h3

/-- Witness for C8 at a concrete reachable state. -/
theorem c8_delete_permanent_witness :
    getFile (deletePage twoDocsBuilt "a" 0) "a"
      = some { mkFileData "a" 1 with
          pageOrder := (mkFileData "a" 1).pageOrder.filter (fun j => !(j == 0)) } :=
  (c8_delete_permanent twoDocsBuilt "a" 0 (mkFileData "a" 1)
    reach_twoDocsBuilt (by decide) (by decide)).1

theorem jsMapGet_eq_find? (files : List FileDoc) (fid : String)
    (h : (files.map FileDoc.id).Nodup) :
    jsMapGet files fid = files.find? (fun f => f.id == fid) := by
  induction files with
  | nil => rfl
  | cons f fs ih =>
    rw [List.map_cons, List.nodup_cons] at h
    have hrev : jsMapGet (f :: fs) fid
        = (fs.reverse ++ [f]).find? (fun x => x.id == fid) := by
      unfold jsMapGet
      rw [List.reverse_cons]
    rw [hrev, List.find?_append]
    by_cases hf : (f.id == fid) = true
    · have hnone : fs.find? (fun f => f.id == fid) = none := by
        rw [List.find?_eq_none]
        intro g hg hgf
        have hmem : g.id ∈ fs.map FileDoc.id := List.mem_map_of_mem FileDoc.id hg
        rw [eq_of_beq hgf, ← eq_of_beq hf] at hmem
        exact h.1 hmem
      have hnone2 : fs.reverse.find? (fun f => f.id == fid) = none := by
        rw [List.find?_eq_none] at hnone ⊢
        intro g hg
        exact hnone g (List.mem_reverse.1 hg)
      rw [hnone2, Option.none_or,
        List.find?_cons_of_pos (p := fun x : FileDoc => x.id == fid) _ hf,
        List.find?_cons_of_pos (p := fun x : FileDoc => x.id == fid) _ hf]
    · rw [List.find?_cons_of_neg (p := fun x : FileDoc => x.id == fid) _ hf,
        List.find?_cons_of_neg (p := fun x : FileDoc => x.id == fid) _ hf,
        List.find?_nil, Option.or_none]
      exact ih h.2

/-- C9: reorderFiles keeps exactly the currently loaded documents whose
ids appear in the given list, in list order (the JS Map lookup agrees
with first-match search because loaded ids are distinct); a loaded
document whose id is omitted is silently dropped, and unknown ids are
ignored. -/
theorem c9_reorderFiles_spec (s : AppState) (ids : List String)
    (hnd : (s.uploadedFiles.map FileDoc.id).Nodup) :
    (reorderFiles s ids).uploadedFiles
      = ids.filterMap (fun id => s.uploadedFiles.find? (fun f => f.id == id))
    ∧ (∀ f ∈ s.uploadedFiles, f.id ∉ ids →
        f ∉ (reorderFiles s ids).uploadedFiles)
    ∧ (∀ f ∈ (reorderFiles s ids).uploadedFiles,
        f ∈ s.uploadedFiles ∧ f.id ∈ ids) := by
  have hmem : ∀ {f : FileDoc}, f ∈ (reorderFiles s ids).uploadedFiles →
      ∃ id0 ∈ ids, jsMapGet s.uploadedFiles id0 = some f := by
    intro f hf
    obtain ⟨id0, hid0, hget⟩ := List.mem_filterMap.1 hf
    exact ⟨id0, hid0, hget⟩
  have hget_mem : ∀ {id0 : String} {f : FileDoc},
      jsMapGet s.uploadedFiles id0 = some f →
      f ∈ s.uploadedFiles ∧ f.id = id0 := by
    intro id0 f hget
    unfold jsMapGet at hget
    have hpa := List.find?_some hget
    exact ⟨List.mem_reverse.1 (List.mem_of_find?_eq_some hget), eq_of_beq hpa⟩
  refine ⟨?_, ?_, ?_⟩
  · show ids.filterMap (jsMapGet s.uploadedFiles) = _
    apply List.filterMap_congr
    intro id0 _
    exact jsMapGet_eq_find? s.uploadedFiles id0 hnd
  · intro f hf hnotin hin
    obtain ⟨id0, hid0, hget⟩ := hmem hin
    exact hnotin ((hget_mem hget).2 ▸ hid0)
  · intro f hf
    obtain ⟨id0, hid0, hget⟩ := hmem hf
    exact ⟨(hget_mem hget).1, (hget_mem hget).2 ▸ hid0⟩

/-- Witness for C9 at a concrete working set: b is kept first, the
unknown id c is ignored, and a is dropped because it is omitted. -/
theorem c9_reorderFiles_spec_witness :
    (reorderFiles twoDocs ["b", "c"]).uploadedFiles
      = ["b", "c"].filterMap
          (fun id => twoDocs.uploadedFiles.find? (fun f => f.id == id)) :=
  (c9_reorderFiles_spec twoDocs ["b", "c"] (by decide)).1

/-- C10: the regex of parseRules accepts the empty clause (all groups
absent), so an empty clause produced by a trailing or doubled comma is
not skipped: with the defaults start = 1 and end = start it emits page
index 0, and a bare rotation suffix adds its rotation; in particular
parseRules "5," 5 is pages [4, 0] and parseRules ">" 5 is [(0, 90)]. -/
theorem c10_empty_clause_emits_page_one (pc : Nat) (hpc : 1 ≤ pc) :
    parseClause [] pc = [⟨0, 0⟩]
    ∧ parseClause ['>'] pc = [⟨0, 90⟩]
    ∧ parseRules "5," 5 = [⟨4, 0⟩, ⟨0, 0⟩]
    ∧ parseRules ">" 5 = [⟨0, 90⟩] := by
  have hm : max 1 (min (pc : Int) 1) = 1 := by
    have h1 : (1 : Int) ≤ (pc : Int) := by exact_mod_cast hpc
    omega
  refine ⟨?_, ?_, by decide, by decide⟩
  · have h1 : parseClause [] pc
        = emitPages (max 1 (min (pc : Int) 1)) (max 1 (min (pc : Int) 1)) 0 := rfl
    rw [h1, hm]
    decide
  · have h1 : parseClause ['>'] pc
        = emitPages (max 1 (min (pc : Int) 1)) (max 1 (min (pc : Int) 1)) 90 := rfl
    rw [h1, hm]
    decide

/-- Witness for C10 at pageCount 5. -/
theorem c10_empty_clause_emits_page_one_witness :
    parseClause [] 5 = [⟨0, 0⟩] ∧ parseClause ['>'] 5 = [⟨0, 90⟩] :=
  ⟨(c10_empty_clause_emits_page_one 5 (by decide)).1,
    (c10_empty_clause_emits_page_one 5 (by decide)).2.1⟩

end Docstack
